import Mathlib

/-!
# kubernetes-secret-generator: generation and regeneration logic

A shallow embedding of `pkg/controller/secret/secret_string.go` and of
`pkg/controller/crd/string/string_controller.go`, with the properties of the
value generator, the annotation-driven pass (`generateData`) and the
resource-driven pass (`Reconcile`).

Conventions of the embedding.
* A Go `string` is a Lean `String`; the strings built by the encoders are
  ASCII, so their length in bytes is their length in characters.
* A Go `[]byte` is a `List Nat` whose entries are below 256.
* A Go `map` is an optional association list: `none` is the nil map, which can
  be read (every key has the zero value) but not written.
* A Go call that returns `(value, error)` yields a `Res`: a value, an error, or
  a runtime fault (index out of range, write to a nil map, negative `make`).
* `crypto/rand.Read` is one `Draw` per call, taken from a `RandSource`.
-/

set_option autoImplicit false

namespace SecretGenerator

/-! ## Errors and results -/

/-- Errors of the cluster store client (`k8s.io/apimachinery/pkg/api/errors`). -/
inductive ApiErr where
  | notFound
  | alreadyExists
  | conflict
  | other (msg : String)
  deriving DecidableEq, Repr

/-- Values of the Go `error` interface that the two packages handle. -/
inductive Err where
  | random (msg : String)
  | duplicate (elem : String)
  | resolve (msg : String)
  | api (e : ApiErr)
  | reference (msg : String)
  deriving DecidableEq, Repr

/-- Outcome of a Go call returning `(value, error)`; `fault` is a runtime panic. -/
inductive Res (α : Type) where
  | ok (a : α)
  | err (e : Err)
  | fault
  deriving DecidableEq, Repr

/-! ## The random source -/

/-- One call of `rand.Read`: it fails, or it fills the buffer from a byte stream. -/
inductive Draw where
  | fail (msg : String)
  | fill (src : Nat → Nat)

/-- The successive calls of `rand.Read` during one pass, by call number. -/
abbrev RandSource := Nat → Draw

/-- The buffer of `n` bytes after a successful `rand.Read`. -/
def fillBytes (src : Nat → Nat) (n : Nat) : List Nat :=
  (List.range n).map (fun i => src i % 256)

/-- Model of `b := make([]byte, n); _, err := rand.Read(b)`. -/
def randRead (d : Draw) (n : Nat) : Except Err (List Nat) :=
  match d with
  | Draw.fail msg => Except.error (Err.random msg)
  | Draw.fill src => Except.ok (fillBytes src n)

/-! ## Text encodings (`encoding/base64`, `encoding/base32`, `encoding/hex`) -/

/-- Alphabet of `base64.StdEncoding`. -/
def encodeStd : List Char :=
  "ABCDEFGHIJKLMNOPQRSTUVWXYZabcdefghijklmnopqrstuvwxyz0123456789+/".data

/-- Alphabet of `base64.URLEncoding`. -/
def encodeURL : List Char :=
  "ABCDEFGHIJKLMNOPQRSTUVWXYZabcdefghijklmnopqrstuvwxyz0123456789-_".data

/-- Alphabet of `base32.StdEncoding`. -/
def encodeStd32 : List Char := "ABCDEFGHIJKLMNOPQRSTUVWXYZ234567".data

/-- Table of `encoding/hex`. -/
def hextable : List Char := "0123456789abcdef".data

/-- The padding character of the base64 and base32 encodings. -/
def padChar : Char := '='

/-- Symbol number `i` of an alphabet (`enc.encode[i]`). -/
def sym (tbl : List Char) (i : Nat) : Char := tbl.getD i padChar

/-- Value of a symbol in an alphabet (the decode map), `none` outside it. -/
def symIndex (tbl : List Char) (c : Char) : Option Nat :=
  if c ∈ tbl then some (tbl.indexOf c) else none

/-- Model of `base64.Encoding.Encode` with padding: three bytes give four symbols. -/
def b64Encode (tbl : List Char) : List Nat → List Char
  | b0 :: b1 :: b2 :: rest =>
      sym tbl ((b0 * 65536 + b1 * 256 + b2) / 262144 % 64)
        :: sym tbl ((b0 * 65536 + b1 * 256 + b2) / 4096 % 64)
        :: sym tbl ((b0 * 65536 + b1 * 256 + b2) / 64 % 64)
        :: sym tbl ((b0 * 65536 + b1 * 256 + b2) % 64)
        :: b64Encode tbl rest
  | [b0, b1] =>
      [sym tbl ((b0 * 65536 + b1 * 256) / 262144 % 64),
       sym tbl ((b0 * 65536 + b1 * 256) / 4096 % 64),
       sym tbl ((b0 * 65536 + b1 * 256) / 64 % 64), padChar]
  | [b0] =>
      [sym tbl ((b0 * 65536) / 262144 % 64), sym tbl ((b0 * 65536) / 4096 % 64),
       padChar, padChar]
  | [] => []

/-- The eight 5-bit blocks of a base32 quantum (absent bytes count as zero). -/
def b32Blocks (s0 s1 s2 s3 s4 : Nat) : List Nat :=
  [s0 / 8, (s0 * 4) % 32 + s1 / 64, (s1 / 2) % 32, (s1 * 16) % 32 + s2 / 16,
   (s2 * 2) % 32 + s3 / 128, (s3 / 4) % 32, (s3 * 8) % 32 + s4 / 32, s4 % 32]

/-- Model of `base32.Encoding.Encode` with padding: five bytes give eight symbols. -/
def b32Encode (tbl : List Char) : List Nat → List Char
  | s0 :: s1 :: s2 :: s3 :: s4 :: rest =>
      (b32Blocks s0 s1 s2 s3 s4).map (sym tbl) ++ b32Encode tbl rest
  | [s0, s1, s2, s3] =>
      ((b32Blocks s0 s1 s2 s3 0).take 7).map (sym tbl) ++ List.replicate 1 padChar
  | [s0, s1, s2] =>
      ((b32Blocks s0 s1 s2 0 0).take 5).map (sym tbl) ++ List.replicate 3 padChar
  | [s0, s1] =>
      ((b32Blocks s0 s1 0 0 0).take 4).map (sym tbl) ++ List.replicate 4 padChar
  | [s0] =>
      ((b32Blocks s0 0 0 0 0).take 2).map (sym tbl) ++ List.replicate 6 padChar
  | [] => []

/-- Model of `hex.Encode`: each byte gives its high and its low nibble. -/
def hexEncode : List Nat → List Char
  | [] => []
  | v :: rest => sym hextable (v / 16) :: sym hextable (v % 16) :: hexEncode rest

/-! ## The value generator (`secret_string.go`) -/

/-- Model of the Go slice expression `s[0:n]` on a string: a fault when out of range. -/
def sliceTo (s : String) (n : Nat) : Res String :=
  if n ≤ s.length then Res.ok (String.mk (s.data.take n)) else Res.fault

/-- The `switch encoding` of `generateRandomString`. -/
def encodeToString (encoding : String) (b : List Nat) : String :=
  if encoding = "base64url" then String.mk (b64Encode encodeURL b)
  else if encoding = "base32" then String.mk (b32Encode encodeStd32 b)
  else if encoding = "hex" then String.mk (hexEncode b)
  else String.mk (b64Encode encodeStd b)

/-- Model of `generateRandomString(length, encoding, lenBytes)`, given the outcome
`d` of its one call of `rand.Read`. `make([]byte, length)` faults on a negative
length. -/
def generateRandomString (d : Draw) (length : Int) (encoding : String) (lenBytes : Bool) :
    Res String :=
  if length < 0 then Res.fault
  else
    match randRead d length.toNat with
    | Except.error e => Res.err e
    | Except.ok b =>
        let encodedString := encodeToString encoding b
        if lenBytes then Res.ok encodedString
        else sliceTo encodedString length.toNat

/-- Model of `generateRandomStringRaw(length)`. -/
def generateRandomStringRaw (d : Draw) (length : Int) : Res (List Nat) :=
  if length < 0 then Res.fault
  else
    match randRead d length.toNat with
    | Except.error e => Res.err e
    | Except.ok b => Res.ok b

/-! ## Decoders (`DecodeString` of the three encoding packages) -/

/-- Values of a run of symbols; `none` when one of them is outside the alphabet. -/
def symIndices (tbl : List Char) : List Char → Option (List Nat)
  | [] => some []
  | c :: cs =>
      match symIndex tbl c, symIndices tbl cs with
      | some v, some vs => some (v :: vs)
      | _, _ => none

/-- The three bytes packed in four 6-bit values (absent values count as zero). -/
def b64Bytes (v0 v1 v2 v3 : Nat) : List Nat :=
  [(v0 * 262144 + v1 * 4096 + v2 * 64 + v3) / 65536 % 256,
   (v0 * 262144 + v1 * 4096 + v2 * 64 + v3) / 256 % 256,
   (v0 * 262144 + v1 * 4096 + v2 * 64 + v3) % 256]

/-- Decode of one base64 quantum; `last` allows padding. -/
def b64Quantum (tbl : List Char) (last : Bool) (c0 c1 c2 c3 : Char) : Option (List Nat) :=
  if last ∧ c2 = padChar ∧ c3 = padChar then
    match symIndices tbl [c0, c1] with
    | some [v0, v1] => some ((b64Bytes v0 v1 0 0).take 1)
    | _ => none
  else if last ∧ c3 = padChar then
    match symIndices tbl [c0, c1, c2] with
    | some [v0, v1, v2] => some ((b64Bytes v0 v1 v2 0).take 2)
    | _ => none
  else
    match symIndices tbl [c0, c1, c2, c3] with
    | some [v0, v1, v2, v3] => some (b64Bytes v0 v1 v2 v3)
    | _ => none

/-- Model of `base64.Encoding.DecodeString` on padded input without line breaks. -/
def b64Decode (tbl : List Char) : List Char → Option (List Nat)
  | [] => some []
  | c0 :: c1 :: c2 :: c3 :: rest =>
      match b64Quantum tbl (decide (rest = [])) c0 c1 c2 c3, b64Decode tbl rest with
      | some a, some r => some (a ++ r)
      | _, _ => none
  | _ => none

/-- The five bytes packed in eight 5-bit values (`dst[n+k] = dbuf[..]<<.. | ..` on bytes). -/
def b32Bytes (q0 q1 q2 q3 q4 q5 q6 q7 : Nat) : List Nat :=
  [(q0 * 8 + q1 / 4) % 256, (q1 * 64 + q2 * 2 + q3 / 16) % 256, (q3 * 16 + q4 / 2) % 256,
   (q4 * 128 + q5 * 4 + q6 / 8) % 256, (q6 * 32 + q7) % 256]

/-- Decode of one base32 quantum; `last` allows padding. -/
def b32Quantum (tbl : List Char) (last : Bool) (c : List Char) : Option (List Nat) :=
  if last ∧ c.drop 2 = List.replicate 6 padChar then
    match symIndices tbl (c.take 2) with
    | some [q0, q1] => some ((b32Bytes q0 q1 0 0 0 0 0 0).take 1)
    | _ => none
  else if last ∧ c.drop 4 = List.replicate 4 padChar then
    match symIndices tbl (c.take 4) with
    | some [q0, q1, q2, q3] => some ((b32Bytes q0 q1 q2 q3 0 0 0 0).take 2)
    | _ => none
  else if last ∧ c.drop 5 = List.replicate 3 padChar then
    match symIndices tbl (c.take 5) with
    | some [q0, q1, q2, q3, q4] => some ((b32Bytes q0 q1 q2 q3 q4 0 0 0).take 3)
    | _ => none
  else if last ∧ c.drop 7 = List.replicate 1 padChar then
    match symIndices tbl (c.take 7) with
    | some [q0, q1, q2, q3, q4, q5, q6] => some ((b32Bytes q0 q1 q2 q3 q4 q5 q6 0).take 4)
    | _ => none
  else
    match symIndices tbl c with
    | some [q0, q1, q2, q3, q4, q5, q6, q7] => some (b32Bytes q0 q1 q2 q3 q4 q5 q6 q7)
    | _ => none

/-- Model of `base32.Encoding.DecodeString` on padded input without line breaks. -/
def b32Decode (tbl : List Char) : List Char → Option (List Nat)
  | [] => some []
  | c0 :: c1 :: c2 :: c3 :: c4 :: c5 :: c6 :: c7 :: rest =>
      match b32Quantum tbl (decide (rest = [])) [c0, c1, c2, c3, c4, c5, c6, c7],
        b32Decode tbl rest with
      | some a, some r => some (a ++ r)
      | _, _ => none
  | _ => none

/-- Model of `fromHexChar` of `encoding/hex`. -/
def fromHexChar (c : Char) : Option Nat :=
  if '0' ≤ c ∧ c ≤ '9' then some (c.toNat - '0'.toNat)
  else if 'a' ≤ c ∧ c ≤ 'f' then some (c.toNat - 'a'.toNat + 10)
  else if 'A' ≤ c ∧ c ≤ 'F' then some (c.toNat - 'A'.toNat + 10)
  else none

/-- Model of `hex.DecodeString`. -/
def hexDecode : List Char → Option (List Nat)
  | [] => some []
  | c0 :: c1 :: rest =>
      match fromHexChar c0, fromHexChar c1, hexDecode rest with
      | some a, some b, some r => some ((a * 16 + b) :: r)
      | _, _, _ => none
  | [_] => none

/-- The decoder of the encoding that `encodeToString` selects. -/
def decodeString (encoding : String) (s : String) : Option (List Nat) :=
  if encoding = "base64url" then b64Decode encodeURL s.data
  else if encoding = "base32" then b32Decode encodeStd32 s.data
  else if encoding = "hex" then hexDecode s.data
  else b64Decode encodeStd s.data

/-- An alphabet of `n` symbols that are pairwise distinct and are not the padding. -/
def GoodTable (tbl : List Char) (n : Nat) : Prop :=
  (∀ i : Fin n, symIndex tbl (sym tbl i.val) = some i.val) ∧ symIndex tbl padChar = none

/-! ## Go maps and strings -/

/-- The conversion `[]byte(s)` of a Go string: its UTF-8 bytes. -/
def stringBytes (s : String) : List Nat :=
  s.data.flatMap (fun c => (String.utf8EncodeChar c).map UInt8.toNat)

/-- First value stored under `k` in an association list. -/
def alookup {V : Type} (k : String) : List (String × V) → Option V
  | [] => none
  | (k1, v) :: rest => if k1 = k then some v else alookup k rest

/-- Store `v` under `k`: replace the entry of `k` if there is one, else add one. -/
def ainsert {V : Type} (k : String) (v : V) : List (String × V) → List (String × V)
  | [] => [(k, v)]
  | (k1, v1) :: rest => if k1 = k then (k, v) :: rest else (k1, v1) :: ainsert k v rest

/-- Remove every entry of `k`. -/
def aerase {V : Type} (k : String) : List (String × V) → List (String × V)
  | [] => []
  | (k1, v1) :: rest => if k1 = k then aerase k rest else (k1, v1) :: aerase k rest

/-- A Go map with string keys; `none` is the nil map. -/
abbrev GoMap (V : Type) := Option (List (String × V))

/-- The two-value read `v, ok := m[k]`. -/
def GoMap.get? {V : Type} (m : GoMap V) (k : String) : Option V :=
  match m with
  | none => none
  | some l => alookup k l

/-- The assignment `m[k] = v`; `none` is the fault of writing to a nil map. -/
def GoMap.set {V : Type} (m : GoMap V) (k : String) (v : V) : Option (GoMap V) :=
  match m with
  | none => none
  | some l => some (some (ainsert k v l))

/-- The builtin `delete(m, k)`, a no-op on the nil map. -/
def GoMap.delete {V : Type} (m : GoMap V) (k : String) : GoMap V :=
  match m with
  | none => none
  | some l => some (aerase k l)

/-- The keys that `for key := range m` visits. -/
def GoMap.keys {V : Type} (m : GoMap V) : List String :=
  match m with
  | none => []
  | some l => l.map Prod.fst

/-- The read `m[k]` of a map of byte slices: the empty slice when `k` is absent. -/
def dataAt (m : GoMap (List Nat)) (k : String) : List Nat := (m.get? k).getD []

/-- Pieces of a character list between commas. -/
def splitOnComma : List Char → List (List Char)
  | [] => [[]]
  | c :: cs =>
      if c = ',' then [] :: splitOnComma cs
      else
        match splitOnComma cs with
        | [] => [[c]]
        | h :: t => (c :: h) :: t

/-- Model of `strings.Split(s, ",")`. -/
def stringsSplit (s : String) : List String := (splitOnComma s.data).map String.mk

/-! ## Cluster objects -/

/-- An entry of `metav1.OwnerReference`. -/
structure OwnerReference where
  kind : String
  name : String
  uid : String
  deriving DecidableEq, Repr

/-- The fields of `corev1.Secret` that the controllers read or write. -/
structure Secret where
  data : GoMap (List Nat)
  annotations : GoMap String
  ownerReferences : List OwnerReference
  secretType : String
  deriving DecidableEq, Repr

/-- The Go struct `reconcile.Result`; `requeueAfter` is in seconds. -/
structure Result where
  requeue : Bool
  requeueAfter : Nat
  deriving DecidableEq, Repr

/-- The value `reconcile.Result{}`. -/
def Result.zero : Result := ⟨false, 0⟩

/-! ## The annotation-driven pass (`generateData`) -/

/-- Model of `contains(s, e)`. -/
def contains : List String → String → Bool
  | [], _ => false
  | a :: s, e => if a = e then true else contains s e

/-- The loop of `ensureUniqueness`, with the set of elements seen so far. -/
def ensureUniquenessFrom (set : List (String × Bool)) : List String → Option Err
  | [] => none
  | e :: a =>
      if (alookup e set).getD false then some (Err.duplicate e)
      else ensureUniquenessFrom (ainsert e true set) a

/-- Model of `ensureUniqueness(a)`; `none` is the nil error. -/
def ensureUniqueness (a : List String) : Option Err := ensureUniquenessFrom [] a

/-- The value computed for one key (lines 68 to 86 of `generateData`): the raw
bytes for encoding `"raw"`, else the bytes of the encoded string. -/
def generateValue (d : Draw) (length : Int) (encoding : String) (byteLen : Bool) :
    Res (List Nat) :=
  if encoding = "raw" then generateRandomStringRaw d length
  else
    match generateRandomString d length encoding byteLen with
    | Res.ok value => Res.ok (stringBytes value)
    | Res.err e => Res.err e
    | Res.fault => Res.fault

/-- What `generateData` needs of the rest of package `secret`: the three
annotation names, the deployment-wide regenerate-insecure policy, and the two
resolvers of the length and encoding annotations (with their fallbacks). The
resolved length is a non-negative integer. -/
structure GenEnv where
  annotationSecretAutoGenerate : String
  annotationSecretSecure : String
  annotationSecretRegenerate : String
  regenerateInsecure : Bool
  secretLengthFromAnnotation : GoMap String → Except Err (Nat × Bool)
  secretEncodingFromAnnotation : GoMap String → Except Err String

/-- State of the loop over `genKeys`: the data map, `generatedCount`, and the
`field` of every "set field of instance" log line so far. -/
structure GenState where
  data : GoMap (List Nat)
  generatedCount : Nat
  fields : List String
  deriving DecidableEq, Repr

/-- How the loop over `genKeys` ends. -/
inductive GenLoop where
  | done (st : GenState)
  | failed (e : Err) (st : GenState)
  | fault (st : GenState)
  deriving DecidableEq, Repr

/-- The loop `for _, key := range genKeys` of `generateData`. The call of
`rand.Read` for a key is call number `generatedCount` of the pass. -/
def genLoop (rnd : RandSource) (regenKeys : List String) (length : Int) (byteLen : Bool)
    (encoding : String) : List String → GenState → GenLoop
  | [], st => GenLoop.done st
  | key :: keys, st =>
      if (dataAt st.data key).length ≠ 0 ∧ contains regenKeys key = false then
        genLoop rnd regenKeys length byteLen encoding keys st
      else
        match generateValue (rnd st.generatedCount) length encoding byteLen with
        | Res.err e => GenLoop.failed e ⟨st.data, st.generatedCount + 1, st.fields⟩
        | Res.fault => GenLoop.fault ⟨st.data, st.generatedCount + 1, st.fields⟩
        | Res.ok value =>
            match st.data.set key value with
            | none => GenLoop.fault ⟨st.data, st.generatedCount + 1, st.fields⟩
            | some d =>
                genLoop rnd regenKeys length byteLen encoding keys
                  ⟨d, st.generatedCount + 1, st.fields ++ [key]⟩

/-- Lines 30 to 43 of `generateData`: the keys queued for regeneration and the
annotations once the regenerate directive has been removed. -/
def regenSelect (env : GenEnv) (genKeys : List String) (annotations : GoMap String) :
    List String × GoMap String :=
  if (annotations.get? env.annotationSecretSecure).isNone ∧ env.regenerateInsecure = true then
    (genKeys, annotations)
  else
    match annotations.get? env.annotationSecretRegenerate with
    | some regenerate =>
        (if regenerate = "yes" then genKeys else stringsSplit regenerate,
          annotations.delete env.annotationSecretRegenerate)
    | none => ([], annotations)

/-- What a call of `generateData` leaves: the secret as mutated in place, the
returned pair (`none` for a runtime fault), and the fields it logged as set. -/
structure GenOut where
  secret : Secret
  ret : Option (Result × Option Err)
  written : List String
  deriving DecidableEq, Repr

/-- Model of `StringGenerator.generateData(instance)`. -/
def generateData (env : GenEnv) (rnd : RandSource) (inst : Secret) : GenOut :=
  let toGenerate := (inst.annotations.get? env.annotationSecretAutoGenerate).getD ""
  let genKeys := stringsSplit toGenerate
  match ensureUniqueness genKeys with
  | some err => ⟨inst, some (Result.zero, some err), []⟩
  | none =>
      let sel := regenSelect env genKeys inst.annotations
      match env.secretLengthFromAnnotation sel.2 with
      | Except.error err =>
          ⟨⟨inst.data, sel.2, inst.ownerReferences, inst.secretType⟩,
            some (Result.zero, some err), []⟩
      | Except.ok (length, byteLen) =>
          match env.secretEncodingFromAnnotation sel.2 with
          | Except.error err =>
              ⟨⟨inst.data, sel.2, inst.ownerReferences, inst.secretType⟩,
                some (Result.zero, some err), []⟩
          | Except.ok encoding =>
              match genLoop rnd sel.1 (length : Int) byteLen encoding genKeys
                  ⟨inst.data, 0, []⟩ with
              | GenLoop.failed err st =>
                  ⟨⟨st.data, sel.2, inst.ownerReferences, inst.secretType⟩,
                    some (⟨false, 30⟩, some err), st.fields⟩
              | GenLoop.fault st =>
                  ⟨⟨st.data, sel.2, inst.ownerReferences, inst.secretType⟩, none, st.fields⟩
              | GenLoop.done st =>
                  if st.generatedCount = genKeys.length then
                    match sel.2.set env.annotationSecretSecure "yes" with
                    | none =>
                        ⟨⟨st.data, sel.2, inst.ownerReferences, inst.secretType⟩, none,
                          st.fields⟩
                    | some a =>
                        ⟨⟨st.data, a, inst.ownerReferences, inst.secretType⟩,
                          some (Result.zero, none), st.fields⟩
                  else
                    ⟨⟨st.data, sel.2, inst.ownerReferences, inst.secretType⟩,
                      some (Result.zero, none), st.fields⟩

/-- The state in which the loop over `genKeys` ended. -/
def GenLoop.state : GenLoop → GenState
  | GenLoop.done st => st
  | GenLoop.failed _ st => st
  | GenLoop.fault st => st

/-- The keys the loop generates: those not skipped by its `continue` test. -/
def needsGen (regenKeys : List String) (data : GoMap (List Nat)) (key : String) : Bool :=
  decide (dataAt data key = []) || contains regenKeys key

/-- Lines 22 to 24 of `generateData`: the keys of the auto-generate annotation. -/
def genKeysOf (env : GenEnv) (inst : Secret) : List String :=
  stringsSplit ((inst.annotations.get? env.annotationSecretAutoGenerate).getD "")

/-- The keys queued for regeneration and the annotations after lines 30 to 43. -/
def selectionOf (env : GenEnv) (inst : Secret) : List String × GoMap String :=
  regenSelect env (genKeysOf env inst) inst.annotations

/-- An environment for examples: policy off, length 2 in characters, hex. -/
def exampleEnv : GenEnv :=
  ⟨"autogenerate", "secure", "regenerate", false, fun _ => Except.ok (2, false),
    fun _ => Except.ok "hex"⟩

/-- The environment of `exampleEnv` with the regenerate-insecure policy on. -/
def insecureEnv : GenEnv :=
  ⟨"autogenerate", "secure", "regenerate", true, fun _ => Except.ok (2, false),
    fun _ => Except.ok "hex"⟩

/-- The environment of `exampleEnv` with the encoding resolved to raw. -/
def rawEnv : GenEnv :=
  ⟨"autogenerate", "secure", "regenerate", false, fun _ => Except.ok (2, true),
    fun _ => Except.ok "raw"⟩

/-- A random source for examples: call `i` fills with bytes `16 * i + j`. -/
def exampleRand : RandSource := fun i => Draw.fill (fun j => 16 * i + j)

/-- A second random source for examples. -/
def otherRand : RandSource := fun i => Draw.fill (fun j => 16 * i + j + 200)

/-- Auto-generate `a,b,c` with directive `a`: `a` and `c` have values, `b` is empty. -/
def directiveSecret : Secret :=
  ⟨some [("a", [120]), ("b", []), ("c", [122])],
    some [("autogenerate", "a,b,c"), ("regenerate", "a")], [], "Opaque"⟩

/-- Auto-generate `a` with directive `yes` and no securely-generated marker. -/
def unmarkedSecret : Secret :=
  ⟨some [("a", [120])], some [("autogenerate", "a"), ("regenerate", "yes")], [], "Opaque"⟩

/-- Auto-generate `a,a`: a duplicate key. -/
def duplicateSecret : Secret :=
  ⟨some [("a", [120])], some [("autogenerate", "a,a")], [], "Opaque"⟩

/-- A list holds the same string at two different positions. -/
def HasDuplicate (a : List String) : Prop :=
  ∃ i j : Fin a.length, i ≠ j ∧ a.get i = a.get j

/-! ## The resource-driven pass (`Reconcile`) -/

/-- The fields of `corev1.ObjectReference` that identify an object. -/
structure ObjectReference where
  kind : String
  name : String
  uid : String
  deriving DecidableEq, Repr

/-- The spec of the `String` resource (`instance.Spec`). -/
structure StringSpec where
  fieldNames : List String
  length : String
  encoding : String
  data : GoMap String
  secretType : String
  forceRecreate : Bool
  deriving DecidableEq, Repr

/-- Modelled from the spec: the states of the resource status (`v1alpha1` is not
among the sources): "state: enum{Pending, Completed, Failed}". -/
inductive ReconcilerState where
  | pending
  | completed
  | failed
  deriving DecidableEq, Repr

/-- The status of the `String` resource: its state and the reference of its secret. -/
structure StringStatus where
  state : ReconcilerState
  secret : Option ObjectReference
  deriving DecidableEq, Repr

/-- The `String` custom resource (`v1alpha1.String`). -/
structure StringCR where
  name : String
  uid : String
  spec : StringSpec
  status : StringStatus
  deriving DecidableEq, Repr

/-- What `Reconcile` needs of the rest of the repository and of `client-go`:
`crd.ParseByteLength(secret.SecretLength(), length)` with its three results (the
resolved length is a non-negative integer) and `reference.GetReference`. -/
structure RecEnv where
  parseByteLength : String → Nat × Bool × Option Err
  getReference : Secret → Except String ObjectReference

/-- The store client `r.client` over a store state `σ`, for the one name of the
request: the two reads and the three writes that `Reconcile` uses. -/
structure Client (σ : Type) where
  getString : σ → Except ApiErr StringCR
  getSecret : σ → Except ApiErr Secret
  create : Secret → σ → Option ApiErr × σ
  update : Secret → σ → Option ApiErr × σ
  statusUpdate : StringCR → σ → Option ApiErr × σ

/-- A write that `Reconcile` issues against the store. -/
inductive Call where
  | create (s : Secret)
  | update (s : Secret)
  | statusUpdate (cr : StringCR)
  deriving DecidableEq, Repr

/-- What a call of `Reconcile` leaves: the returned pair (`none` for a runtime
fault), the writes issued in order, and the store state. -/
structure Run (σ : Type) where
  ret : Option (Result × Option Err)
  calls : List Call
  state : σ

/-- Modelled from the spec: `secret.GenerateRandomString`, the exported generator
that `Reconcile` calls, is not among the sources. "Encoding raw bypasses text
encoding entirely and returns the raw random bytes directly"; "all other
encodings transform the raw bytes through the named text encoding", in full in
byte-length mode and truncated to `length` characters in character-length mode.
This is the value that `generateData` computes for one key. -/
def GenerateRandomString (d : Draw) (length : Int) (encoding : String) (lenBytes : Bool) :
    Res (List Nat) :=
  generateValue d length encoding lenBytes

/-- Modelled from the spec: `crd.NewSecret(instance, values, secretType)` is not
among the sources. "construct a new secret object tagged with the declared type
and an owner reference to the triggering resource"; the kind of that reference
is the kind the ownership check of `Reconcile` looks for. -/
def NewSecret (inst : StringCR) (values : List (String × List Nat)) (secretType : String) :
    Secret :=
  ⟨some values, none, [⟨"String", inst.name, inst.uid⟩], secretType⟩

/-- Lines 116 to 120: `values[key] = []byte(data[key])` for every key of `data`. -/
def literalValues (data : GoMap String) : List (String × List Nat) :=
  data.keys.foldl
    (fun values key => ainsert key (stringBytes ((data.get? key).getD "")) values) []

/-- How a loop over `fieldNames` ends. -/
inductive FieldLoop where
  | done (values : List (String × List Nat))
  | failed (randErr : Err)
  | fault
  deriving DecidableEq, Repr

/-- The two loops `for _, field := range fieldNames` of `Reconcile`: `needs` is
the condition under which a field is generated (always on the create path),
`draws` counts the calls of `rand.Read` so far. -/
def fieldLoop (rnd : RandSource) (needs : String → Bool) (secretLength : Int)
    (encoding : String) (isByteLength : Bool) :
    List String → List (String × List Nat) → Nat → FieldLoop
  | [], values, _ => FieldLoop.done values
  | field :: rest, values, draws =>
      if needs field = true then
        match GenerateRandomString (rnd draws) secretLength encoding isByteLength with
        | Res.err randErr => FieldLoop.failed randErr
        | Res.fault => FieldLoop.fault
        | Res.ok randomString =>
            fieldLoop rnd needs secretLength encoding isByteLength rest
              (ainsert field randomString values) (draws + 1)
      else fieldLoop rnd needs secretLength encoding isByteLength rest values draws

/-- The condition of line 172: `string(existing.Data[field]) == "" || recreate`. -/
def needsValue (existing : Secret) (recreate : Bool) (field : String) : Bool :=
  decide (dataAt existing.data field = []) || recreate

/-- Lines 183 to 193: is there an owner reference of kind `"String"`. -/
def ownedByCR : List OwnerReference → Bool
  | [] => false
  | ref :: rest => if ref.kind ≠ "String" then ownedByCR rest else true

/-- Lines 202 to 204: `targetSec.Data[key] = values[key]` for the keys of `values`;
`none` is the fault of writing to a nil map. -/
def mergeValues (values : List (String × List Nat)) :
    List String → GoMap (List Nat) → Option (GoMap (List Nat))
  | [], d => some d
  | key :: keys, d =>
      match d.set key ((alookup key values).getD []) with
      | none => none
      | some d1 => mergeValues values keys d1

/-- Is the write a `Create`. -/
def Call.isCreate : Call → Bool
  | Call.create _ => true
  | _ => false

/-- Is the write an `Update` of the secret. -/
def Call.isUpdate : Call → Bool
  | Call.update _ => true
  | _ => false

/-- Lines 150 to 162 and 211 to 226: take the reference of the secret, mark the
resource completed and update its status. -/
def finishStatus {σ : Type} (env : RecEnv) (c : Client σ) (inst : StringCR) (sec : Secret)
    (calls : List Call) (st : σ) : Run σ :=
  match env.getReference sec with
  | Except.error msg => ⟨some (Result.zero, some (Err.reference msg)), calls, st⟩
  | Except.ok stringRef =>
      let inst1 : StringCR :=
        ⟨inst.name, inst.uid, inst.spec, ⟨ReconcilerState.completed, some stringRef⟩⟩
      match c.statusUpdate inst1 st with
      | (some err, st1) =>
          ⟨some (Result.zero, some (Err.api err)), calls ++ [Call.statusUpdate inst1], st1⟩
      | (none, st1) => ⟨some (Result.zero, none), calls ++ [Call.statusUpdate inst1], st1⟩

/-- Model of `ReconcileString.Reconcile(request)`. -/
def Reconcile {σ : Type} (env : RecEnv) (c : Client σ) (rnd : RandSource) (st : σ) : Run σ :=
  match c.getString st with
  | Except.error err =>
      if err = ApiErr.notFound then ⟨some (Result.zero, none), [], st⟩
      else ⟨some (⟨true, 0⟩, some (Err.api err)), [], st⟩
  | Except.ok inst =>
      let fieldNames := inst.spec.fieldNames
      let encoding := inst.spec.encoding
      let recreate := inst.spec.forceRecreate
      let values := literalValues inst.spec.data
      let secretLength : Int := ((env.parseByteLength inst.spec.length).1 : Nat)
      let isByteLength := (env.parseByteLength inst.spec.length).2.1
      match c.getSecret st with
      | Except.error err =>
          if err = ApiErr.notFound then
            match fieldLoop rnd (fun _ => true) secretLength encoding isByteLength
                fieldNames values 0 with
            | FieldLoop.failed _ => ⟨some (⟨false, 30⟩, some (Err.api err)), [], st⟩
            | FieldLoop.fault => ⟨none, [], st⟩
            | FieldLoop.done values1 =>
                let desiredSecret := NewSecret inst values1 inst.spec.secretType
                match c.create desiredSecret st with
                | (some cerr, st1) =>
                    if cerr = ApiErr.alreadyExists then
                      finishStatus env c inst desiredSecret [Call.create desiredSecret] st1
                    else
                      ⟨some (⟨true, 0⟩, some (Err.api cerr)), [Call.create desiredSecret], st1⟩
                | (none, st1) =>
                    finishStatus env c inst desiredSecret [Call.create desiredSecret] st1
          else ⟨some (Result.zero, some (Err.api err)), [], st⟩
      | Except.ok existing =>
          match fieldLoop rnd (needsValue existing recreate) secretLength encoding isByteLength
              fieldNames values 0 with
          | FieldLoop.failed _ => ⟨some (⟨false, 30⟩, none), [], st⟩
          | FieldLoop.fault => ⟨none, [], st⟩
          | FieldLoop.done values1 =>
              if ownedByCR existing.ownerReferences = false then
                ⟨some (Result.zero, none), [], st⟩
              else
                match mergeValues values1 (values1.map Prod.fst) existing.data with
                | none => ⟨none, [], st⟩
                | some data1 =>
                    let targetSec : Secret :=
                      ⟨data1, existing.annotations, existing.ownerReferences,
                        existing.secretType⟩
                    match c.update targetSec st with
                    | (some uerr, st1) =>
                        ⟨some (⟨true, 0⟩, some (Err.api uerr)), [Call.update targetSec], st1⟩
                    | (none, st1) =>
                        finishStatus env c inst targetSec [Call.update targetSec] st1

/-! ## An in-memory store -/

/-- The store under the name of the request: the resource and its secret. -/
structure Store where
  cr : Option StringCR
  secret : Option Secret
  deriving DecidableEq, Repr

/-- Modelled from the spec: the store collaborator contract, "get(key) ->
(object | NotFound), create(object) -> (ok | AlreadyExists), update(object) ->
(ok | NotFound), updateStatus(object)", with no other writer. -/
def memClient : Client Store where
  getString := fun st =>
    match st.cr with
    | some cr => Except.ok cr
    | none => Except.error ApiErr.notFound
  getSecret := fun st =>
    match st.secret with
    | some s => Except.ok s
    | none => Except.error ApiErr.notFound
  create := fun s st =>
    match st.secret with
    | none => (none, ⟨st.cr, some s⟩)
    | some _ => (some ApiErr.alreadyExists, st)
  update := fun s st =>
    match st.secret with
    | some _ => (none, ⟨st.cr, some s⟩)
    | none => (some ApiErr.notFound, st)
  statusUpdate := fun cr st =>
    match st.cr with
    | some _ => (none, ⟨some cr, st.secret⟩)
    | none => (some ApiErr.notFound, st)

/-- One pass of `Reconcile` against the in-memory store. -/
def pass (env : RecEnv) (rnd : RandSource) (st : Store) : Store :=
  (Reconcile env memClient rnd st).state

/-! ## Examples for the resource-driven pass -/

/-- An environment of `Reconcile` for examples: every length string resolves to
one character, and every secret has a reference. -/
def exampleRecEnv : RecEnv :=
  ⟨fun _ => (1, false, none), fun _ => Except.ok ⟨"Secret", "example", "uid-secret"⟩⟩

/-- A resource declaring `fieldNames`, the literal `data` and the recreate flag. -/
def exampleString (fieldNames : List String) (data : GoMap String) (recreate : Bool) :
    StringCR :=
  ⟨"example", "uid-string", ⟨fieldNames, "1", "hex", data, "Opaque", recreate⟩,
    ⟨ReconcilerState.pending, none⟩⟩

/-- An existing secret `{user: "alice", pass: ""}` with the given owner kind. -/
def aliceSecret (ownerKind : String) : Secret :=
  ⟨some [("user", stringBytes "alice"), ("pass", [])], none,
    [⟨ownerKind, "example", "uid-string"⟩], "Opaque"⟩

/-- A random source whose every call of `rand.Read` fails. -/
def failingRand : RandSource := fun _ => Draw.fail "entropy source unavailable"

/-- The in-memory store when another writer creates the secret between the fetch
and the create: `Create` answers AlreadyExists. -/
def racingClient : Client Store where
  getString := memClient.getString
  getSecret := memClient.getSecret
  create := fun _ st => (some ApiErr.alreadyExists, st)
  update := memClient.update
  statusUpdate := memClient.statusUpdate

/-- An environment of `Reconcile` in which the length string `"abc"` fails to
parse (the parser then yields length 0) and any other string is one character. -/
def strictLengthEnv : RecEnv :=
  ⟨fun s => if s = "abc" then (0, false, some (Err.resolve "invalid length")) else (1, false, none),
    fun _ => Except.ok ⟨"Secret", "example", "uid-secret"⟩⟩

/-- A resource declaring the field `a` with the length string `"abc"`. -/
def badLengthString : StringCR :=
  ⟨"example", "uid-string", ⟨["a"], "abc", "hex", none, "Opaque", false⟩,
    ⟨ReconcilerState.pending, none⟩⟩

/-- An owned secret whose data map is nil. -/
def nilDataSecret : Secret :=
  ⟨none, none, [⟨"String", "example", "uid-string"⟩], "Opaque"⟩

/-- A character is one of the first `n` symbols of an alphabet. -/
def IsSym (tbl : List Char) (n : Nat) (c : Char) : Prop :=
  ∃ i, i < n ∧ c = sym tbl i

/-! # Theorems -/

/-! ## Lengths of the encodings -/

theorem fillBytes_length (src : Nat → Nat) (n : Nat) : (fillBytes src n).length = n := by
  simp [fillBytes]

theorem fillBytes_lt (src : Nat → Nat) (n : Nat) : ∀ x ∈ fillBytes src n, x < 256 := by
  intro x hx
  simp only [fillBytes, List.mem_map] at hx
  obtain ⟨i, _, rfl⟩ := hx
  exact Nat.mod_lt _ (by decide)

theorem b64Encode_length (tbl : List Char) (b : List Nat) :
    (b64Encode tbl b).length = 4 * ((b.length + 2) / 3) := by
  induction b using b64Encode.induct tbl with
  | case1 b0 b1 b2 rest ih =>
      simp only [b64Encode, List.length_cons, ih]
      omega
  | case2 b0 b1 => simp [b64Encode]
  | case3 b0 => simp [b64Encode]
  | case4 => simp [b64Encode]

theorem b32Encode_length (tbl : List Char) (b : List Nat) :
    (b32Encode tbl b).length = 8 * ((b.length + 4) / 5) := by
  induction b using b32Encode.induct tbl with
  | case1 s0 s1 s2 s3 s4 rest ih =>
      simp only [b32Encode, b32Blocks, List.length_append, List.length_map, List.length_cons,
        List.length_nil, ih]
      omega
  | case2 s0 s1 s2 s3 => simp [b32Encode, b32Blocks]
  | case3 s0 s1 s2 => simp [b32Encode, b32Blocks]
  | case4 s0 s1 => simp [b32Encode, b32Blocks]
  | case5 s0 => simp [b32Encode, b32Blocks]
  | case6 => simp [b32Encode]

theorem hexEncode_length (b : List Nat) : (hexEncode b).length = 2 * b.length := by
  induction b with
  | nil => simp [hexEncode]
  | cons v rest ih =>
      simp only [hexEncode, List.length_cons, ih]
      omega

/-- Every encoding of the switch produces at least one character per input byte. -/
theorem encodeToString_length_ge (encoding : String) (b : List Nat) :
    b.length ≤ (encodeToString encoding b).length := by
  unfold encodeToString
  split_ifs
  · show b.length ≤ (b64Encode encodeURL b).length
    rw [b64Encode_length]; omega
  · show b.length ≤ (b32Encode encodeStd32 b).length
    rw [b32Encode_length]; omega
  · show b.length ≤ (hexEncode b).length
    rw [hexEncode_length]; omega
  · show b.length ≤ (b64Encode encodeStd b).length
    rw [b64Encode_length]; omega

/-- In character-length mode the slice is in range and keeps exactly `n` characters. -/
theorem generateRandomString_chars (src : Nat → Nat) (n : Nat) (encoding : String) :
    ∃ s, generateRandomString (Draw.fill src) (n : Int) encoding false = Res.ok s
      ∧ s.length = n
      ∧ s.data = (encodeToString encoding (fillBytes src n)).data.take n := by
  have hge := encodeToString_length_ge encoding (fillBytes src n)
  rw [fillBytes_length] at hge
  refine ⟨String.mk ((encodeToString encoding (fillBytes src n)).data.take n), ?_, ?_, rfl⟩
  · simp [generateRandomString, randRead, sliceTo, hge]
  · show (List.take n (encodeToString encoding (fillBytes src n)).data).length = n
    rw [List.length_take]
    exact Nat.min_eq_left hge

/-! ## Decoding undoes encoding -/

set_option maxRecDepth 100000 in
theorem encodeStd_good : GoodTable encodeStd 64 := by
  constructor <;> decide

set_option maxRecDepth 100000 in
theorem encodeURL_good : GoodTable encodeURL 64 := by
  constructor <;> decide

set_option maxRecDepth 100000 in
theorem encodeStd32_good : GoodTable encodeStd32 32 := by
  constructor <;> decide

theorem GoodTable.index_sym {tbl : List Char} {n : Nat} (h : GoodTable tbl n) {i : Nat}
    (hi : i < n) : symIndex tbl (sym tbl i) = some i :=
  h.1 ⟨i, hi⟩

theorem GoodTable.sym_ne_pad {tbl : List Char} {n : Nat} (h : GoodTable tbl n) {i : Nat}
    (hi : i < n) : sym tbl i ≠ padChar := by
  intro hc
  have h1 := h.index_sym hi
  rw [hc, h.2] at h1
  cases h1

theorem b64Encode_decode {tbl : List Char} (h : GoodTable tbl 64) (b : List Nat)
    (hb : ∀ x ∈ b, x < 256) : b64Decode tbl (b64Encode tbl b) = some b := by
  induction b using b64Encode.induct tbl with
  | case1 b0 b1 b2 rest ih =>
      have h0 : b0 < 256 := hb b0 (by simp)
      have h1 : b1 < 256 := hb b1 (by simp)
      have h2 : b2 < 256 := hb b2 (by simp)
      have ih2 := ih (fun x hx => hb x (by simp [hx]))
      have e0 := h.index_sym (i := (b0 * 65536 + b1 * 256 + b2) / 262144 % 64) (by omega)
      have e1 := h.index_sym (i := (b0 * 65536 + b1 * 256 + b2) / 4096 % 64) (by omega)
      have e2 := h.index_sym (i := (b0 * 65536 + b1 * 256 + b2) / 64 % 64) (by omega)
      have e3 := h.index_sym (i := (b0 * 65536 + b1 * 256 + b2) % 64) (by omega)
      have n3 := h.sym_ne_pad (i := (b0 * 65536 + b1 * 256 + b2) % 64) (by omega)
      simp only [b64Encode, b64Decode, b64Quantum, symIndices, e0, e1, e2, e3, n3, ih2,
        and_false, if_false, b64Bytes]
      simp only [List.cons_append, List.nil_append, Option.some.injEq, List.cons.injEq,
        and_true]
      omega
  | case2 b0 b1 =>
      have h0 : b0 < 256 := hb b0 (by simp)
      have h1 : b1 < 256 := hb b1 (by simp)
      have e0 := h.index_sym (i := (b0 * 65536 + b1 * 256) / 262144 % 64) (by omega)
      have e1 := h.index_sym (i := (b0 * 65536 + b1 * 256) / 4096 % 64) (by omega)
      have e2 := h.index_sym (i := (b0 * 65536 + b1 * 256) / 64 % 64) (by omega)
      have n2 := h.sym_ne_pad (i := (b0 * 65536 + b1 * 256) / 64 % 64) (by omega)
      simp only [b64Encode, b64Decode, b64Quantum, symIndices, e0, e1, e2, n2, b64Bytes,
        decide_True, and_true, and_false, false_and, true_and, if_false, if_true, List.take,
        List.append_nil, Option.some.injEq, List.cons.injEq]
      omega
  | case3 b0 =>
      have h0 : b0 < 256 := hb b0 (by simp)
      have e0 := h.index_sym (i := (b0 * 65536) / 262144 % 64) (by omega)
      have e1 := h.index_sym (i := (b0 * 65536) / 4096 % 64) (by omega)
      simp only [b64Encode, b64Decode, b64Quantum, symIndices, e0, e1, b64Bytes,
        decide_True, and_true, true_and, if_true, List.take,
        List.append_nil, Option.some.injEq, List.cons.injEq]
      omega
  | case4 => simp [b64Encode, b64Decode]

theorem b32Encode_decode {tbl : List Char} (h : GoodTable tbl 32) (b : List Nat)
    (hb : ∀ x ∈ b, x < 256) : b32Decode tbl (b32Encode tbl b) = some b := by
  induction b using b32Encode.induct tbl with
  | case1 s0 s1 s2 s3 s4 rest ih =>
      have h0 : s0 < 256 := hb s0 (by simp)
      have h1 : s1 < 256 := hb s1 (by simp)
      have h2 : s2 < 256 := hb s2 (by simp)
      have h3 : s3 < 256 := hb s3 (by simp)
      have h4 : s4 < 256 := hb s4 (by simp)
      have ih2 := ih (fun x hx => hb x (by simp [hx]))
      have e0 := h.index_sym (i := s0 / 8) (by omega)
      have n0 := h.sym_ne_pad (i := s0 / 8) (by omega)
      have e1 := h.index_sym (i := (s0 * 4) % 32 + s1 / 64) (by omega)
      have n1 := h.sym_ne_pad (i := (s0 * 4) % 32 + s1 / 64) (by omega)
      have e2 := h.index_sym (i := (s1 / 2) % 32) (by omega)
      have n2 := h.sym_ne_pad (i := (s1 / 2) % 32) (by omega)
      have e3 := h.index_sym (i := (s1 * 16) % 32 + s2 / 16) (by omega)
      have n3 := h.sym_ne_pad (i := (s1 * 16) % 32 + s2 / 16) (by omega)
      have e4 := h.index_sym (i := (s2 * 2) % 32 + s3 / 128) (by omega)
      have n4 := h.sym_ne_pad (i := (s2 * 2) % 32 + s3 / 128) (by omega)
      have e5 := h.index_sym (i := (s3 / 4) % 32) (by omega)
      have n5 := h.sym_ne_pad (i := (s3 / 4) % 32) (by omega)
      have e6 := h.index_sym (i := (s3 * 8) % 32 + s4 / 32) (by omega)
      have n6 := h.sym_ne_pad (i := (s3 * 8) % 32 + s4 / 32) (by omega)
      have e7 := h.index_sym (i := s4 % 32) (by omega)
      have n7 := h.sym_ne_pad (i := s4 % 32) (by omega)
      simp only [b32Encode, b32Blocks, b32Decode, b32Quantum, symIndices, b32Bytes, ih2, e0, n0, e1, n1, e2, n2, e3, n3, e4, n4, e5, n5, e6, n6, e7, n7,
        List.map, List.take, List.drop, List.replicate, List.append_eq, List.cons_append,
        List.nil_append,
        List.append_nil, List.cons.injEq, decide_True, decide_eq_true_eq, and_true, and_false,
        false_and, true_and, if_false, if_true, and_self, Option.some.injEq]
      omega
  | case2 s0 s1 s2 s3 =>
      have h0 : s0 < 256 := hb s0 (by simp)
      have h1 : s1 < 256 := hb s1 (by simp)
      have h2 : s2 < 256 := hb s2 (by simp)
      have h3 : s3 < 256 := hb s3 (by simp)
      have e0 := h.index_sym (i := s0 / 8) (by omega)
      have n0 := h.sym_ne_pad (i := s0 / 8) (by omega)
      have e1 := h.index_sym (i := (s0 * 4) % 32 + s1 / 64) (by omega)
      have n1 := h.sym_ne_pad (i := (s0 * 4) % 32 + s1 / 64) (by omega)
      have e2 := h.index_sym (i := (s1 / 2) % 32) (by omega)
      have n2 := h.sym_ne_pad (i := (s1 / 2) % 32) (by omega)
      have e3 := h.index_sym (i := (s1 * 16) % 32 + s2 / 16) (by omega)
      have n3 := h.sym_ne_pad (i := (s1 * 16) % 32 + s2 / 16) (by omega)
      have e4 := h.index_sym (i := (s2 * 2) % 32 + s3 / 128) (by omega)
      have n4 := h.sym_ne_pad (i := (s2 * 2) % 32 + s3 / 128) (by omega)
      have e5 := h.index_sym (i := (s3 / 4) % 32) (by omega)
      have n5 := h.sym_ne_pad (i := (s3 / 4) % 32) (by omega)
      have e6 := h.index_sym (i := (s3 * 8) % 32 + 0 / 32) (by omega)
      have n6 := h.sym_ne_pad (i := (s3 * 8) % 32 + 0 / 32) (by omega)
      simp only [b32Encode, b32Blocks, b32Decode, b32Quantum, symIndices, b32Bytes, e0, n0, e1, n1, e2, n2, e3, n3, e4, n4, e5, n5, e6, n6,
        List.map, List.take, List.drop, List.replicate, List.append_eq, List.cons_append,
        List.nil_append,
        List.append_nil, List.cons.injEq, decide_True, decide_eq_true_eq, and_true, and_false,
        false_and, true_and, if_false, if_true, and_self, Option.some.injEq]
      omega
  | case3 s0 s1 s2 =>
      have h0 : s0 < 256 := hb s0 (by simp)
      have h1 : s1 < 256 := hb s1 (by simp)
      have h2 : s2 < 256 := hb s2 (by simp)
      have e0 := h.index_sym (i := s0 / 8) (by omega)
      have n0 := h.sym_ne_pad (i := s0 / 8) (by omega)
      have e1 := h.index_sym (i := (s0 * 4) % 32 + s1 / 64) (by omega)
      have n1 := h.sym_ne_pad (i := (s0 * 4) % 32 + s1 / 64) (by omega)
      have e2 := h.index_sym (i := (s1 / 2) % 32) (by omega)
      have n2 := h.sym_ne_pad (i := (s1 / 2) % 32) (by omega)
      have e3 := h.index_sym (i := (s1 * 16) % 32 + s2 / 16) (by omega)
      have n3 := h.sym_ne_pad (i := (s1 * 16) % 32 + s2 / 16) (by omega)
      have e4 := h.index_sym (i := (s2 * 2) % 32 + 0 / 128) (by omega)
      have n4 := h.sym_ne_pad (i := (s2 * 2) % 32 + 0 / 128) (by omega)
      simp only [b32Encode, b32Blocks, b32Decode, b32Quantum, symIndices, b32Bytes, e0, n0, e1, n1, e2, n2, e3, n3, e4, n4,
        List.map, List.take, List.drop, List.replicate, List.append_eq, List.cons_append,
        List.nil_append,
        List.append_nil, List.cons.injEq, decide_True, decide_eq_true_eq, and_true, and_false,
        false_and, true_and, if_false, if_true, and_self, Option.some.injEq]
      omega
  | case4 s0 s1 =>
      have h0 : s0 < 256 := hb s0 (by simp)
      have h1 : s1 < 256 := hb s1 (by simp)
      have e0 := h.index_sym (i := s0 / 8) (by omega)
      have n0 := h.sym_ne_pad (i := s0 / 8) (by omega)
      have e1 := h.index_sym (i := (s0 * 4) % 32 + s1 / 64) (by omega)
      have n1 := h.sym_ne_pad (i := (s0 * 4) % 32 + s1 / 64) (by omega)
      have e2 := h.index_sym (i := (s1 / 2) % 32) (by omega)
      have n2 := h.sym_ne_pad (i := (s1 / 2) % 32) (by omega)
      have e3 := h.index_sym (i := (s1 * 16) % 32 + 0 / 16) (by omega)
      have n3 := h.sym_ne_pad (i := (s1 * 16) % 32 + 0 / 16) (by omega)
      simp only [b32Encode, b32Blocks, b32Decode, b32Quantum, symIndices, b32Bytes, e0, n0, e1, n1, e2, n2, e3, n3,
        List.map, List.take, List.drop, List.replicate, List.append_eq, List.cons_append,
        List.nil_append,
        List.append_nil, List.cons.injEq, decide_True, decide_eq_true_eq, and_true, and_false,
        false_and, true_and, if_false, if_true, and_self, Option.some.injEq]
      omega
  | case5 s0 =>
      have h0 : s0 < 256 := hb s0 (by simp)
      have e0 := h.index_sym (i := s0 / 8) (by omega)
      have n0 := h.sym_ne_pad (i := s0 / 8) (by omega)
      have e1 := h.index_sym (i := (s0 * 4) % 32 + 0 / 64) (by omega)
      have n1 := h.sym_ne_pad (i := (s0 * 4) % 32 + 0 / 64) (by omega)
      simp only [b32Encode, b32Blocks, b32Decode, b32Quantum, symIndices, b32Bytes, e0, n0, e1, n1,
        List.map, List.take, List.drop, List.replicate, List.append_eq, List.cons_append,
        List.nil_append,
        List.append_nil, List.cons.injEq, decide_True, decide_eq_true_eq, and_true, and_false,
        false_and, true_and, if_false, if_true, and_self, Option.some.injEq]
      omega
  | case6 => simp [b32Encode, b32Decode]

set_option maxRecDepth 100000 in
theorem fromHexChar_sym : ∀ i : Fin 16, fromHexChar (sym hextable i.val) = some i.val := by
  decide

theorem hexEncode_decode (b : List Nat) (hb : ∀ x ∈ b, x < 256) :
    hexDecode (hexEncode b) = some b := by
  induction b with
  | nil => simp [hexEncode, hexDecode]
  | cons v rest ih =>
      have hv : v < 256 := hb v (by simp)
      have ih2 := ih (fun x hx => hb x (by simp [hx]))
      have e0 := fromHexChar_sym ⟨v / 16, by omega⟩
      have e1 := fromHexChar_sym ⟨v % 16, by omega⟩
      simp only at e0 e1
      simp only [hexEncode, hexDecode, e0, e1, ih2, Option.some.injEq, List.cons.injEq, and_true]
      omega

/-- Decoding an encoded byte string under the same encoding gives the bytes back. -/
theorem decodeString_encodeToString (encoding : String) (b : List Nat)
    (hb : ∀ x ∈ b, x < 256) : decodeString encoding (encodeToString encoding b) = some b := by
  unfold decodeString encodeToString
  split_ifs
  · exact b64Encode_decode encodeURL_good b hb
  · exact b32Encode_decode encodeStd32_good b hb
  · exact hexEncode_decode b hb
  · exact b64Encode_decode encodeStd_good b hb

/-! ## Association lists and Go maps -/

theorem alookup_ainsert {V : Type} (k k1 : String) (v : V) (l : List (String × V)) :
    alookup k1 (ainsert k v l) = if k1 = k then some v else alookup k1 l := by
  induction l with
  | nil =>
      by_cases h : k1 = k
      · simp [ainsert, alookup, h]
      · simp [ainsert, alookup, h, Ne.symm h]
  | cons p rest ih =>
      obtain ⟨k2, v2⟩ := p
      by_cases h2 : k2 = k
      · by_cases h : k1 = k
        · simp [ainsert, alookup, h2, h]
        · simp [ainsert, alookup, h2, h, Ne.symm h]
      · by_cases h : k1 = k
        · subst h
          simp [ainsert, alookup, h2, ih]
        · by_cases h3 : k2 = k1
          · simp [ainsert, alookup, h2, h, h3]
          · simp [ainsert, alookup, h2, h, h3, ih]

theorem alookup_aerase {V : Type} (k k1 : String) (l : List (String × V)) :
    alookup k1 (aerase k l) = if k1 = k then none else alookup k1 l := by
  induction l with
  | nil => simp [aerase, alookup]
  | cons p rest ih =>
      obtain ⟨k2, v2⟩ := p
      by_cases h2 : k2 = k
      · by_cases h : k1 = k
        · subst h
          simp [aerase, alookup, h2, ih]
        · simp [aerase, alookup, h2, h, ih, Ne.symm h]
      · by_cases h : k1 = k
        · subst h
          simp [aerase, alookup, h2, ih]
        · by_cases h3 : k2 = k1
          · simp [aerase, alookup, h2, h, h3]
          · simp [aerase, alookup, h2, h, h3, ih]

theorem ainsert_eq_self {V : Type} (k : String) (v : V) (l : List (String × V))
    (h : alookup k l = some v) : ainsert k v l = l := by
  induction l with
  | nil => simp [alookup] at h
  | cons p rest ih =>
      obtain ⟨k2, v2⟩ := p
      by_cases h2 : k2 = k
      · simp [alookup, h2] at h
        simp [ainsert, h2, h]
      · simp [alookup, h2] at h
        simp [ainsert, h2, ih h]

theorem GoMap.get?_set {V : Type} {m m1 : GoMap V} {k : String} {v : V}
    (h : m.set k v = some m1) (k1 : String) :
    m1.get? k1 = if k1 = k then some v else m.get? k1 := by
  cases m with
  | none => simp [GoMap.set] at h
  | some l =>
      simp only [GoMap.set, Option.some.injEq] at h
      subst h
      simp [GoMap.get?, alookup_ainsert]

theorem GoMap.get?_delete {V : Type} (m : GoMap V) (k k1 : String) :
    (m.delete k).get? k1 = if k1 = k then none else m.get? k1 := by
  cases m with
  | none => simp [GoMap.delete, GoMap.get?]
  | some l => simp [GoMap.delete, GoMap.get?, alookup_aerase]

/-! ## `ensureUniqueness` -/

theorem contains_iff (s : List String) (e : String) : contains s e = true ↔ e ∈ s := by
  induction s with
  | nil => simp [contains]
  | cons a s ih =>
      by_cases h : a = e
      · simp [contains, h]
      · simp [contains, h, ih, Ne.symm h]

theorem ensureUniquenessFrom_eq_none (a : List String) (set : List (String × Bool)) :
    ensureUniquenessFrom set a = none ↔
      a.Nodup ∧ ∀ e ∈ a, (alookup e set).getD false = false := by
  induction a generalizing set with
  | nil => simp [ensureUniquenessFrom]
  | cons e a ih =>
      by_cases h : (alookup e set).getD false = true
      · simp only [ensureUniquenessFrom, h, if_true]
        constructor
        · intro hc; cases hc
        · rintro ⟨_, h2⟩
          have := h2 e (by simp)
          rw [h] at this
          cases this
      · have hf : (alookup e set).getD false = false := by simpa using h
        simp only [ensureUniquenessFrom, hf, Bool.false_eq_true, if_false, ih, alookup_ainsert,
          List.nodup_cons, List.mem_cons, forall_eq_or_imp]
        constructor
        · rintro ⟨hn, h2⟩
          refine ⟨⟨?_, hn⟩, trivial, ?_⟩
          · intro he
            have := h2 e he
            simp at this
          · intro x hx
            have := h2 x hx
            by_cases hxe : x = e
            · subst hxe; exact hf
            · simpa [hxe] using this
        · rintro ⟨⟨hne, hn⟩, _, h2⟩
          refine ⟨hn, ?_⟩
          intro x hx
          have hxe : x ≠ e := fun hc => hne (hc ▸ hx)
          simpa [hxe] using h2 x hx

theorem ensureUniqueness_eq_none (a : List String) : ensureUniqueness a = none ↔ a.Nodup := by
  simp [ensureUniqueness, ensureUniquenessFrom_eq_none, alookup]

theorem ensureUniquenessFrom_error (a : List String) (set : List (String × Bool)) (err : Err)
    (h : ensureUniquenessFrom set a = some err) : ∃ e ∈ a, err = Err.duplicate e := by
  induction a generalizing set with
  | nil => simp [ensureUniquenessFrom] at h
  | cons e a ih =>
      by_cases hl : (alookup e set).getD false = true
      · simp only [ensureUniquenessFrom, hl, if_true, Option.some.injEq] at h
        exact ⟨e, by simp, h.symm⟩
      · have hf : (alookup e set).getD false = false := by simpa using hl
        simp only [ensureUniquenessFrom, hf, Bool.false_eq_true, if_false] at h
        obtain ⟨x, hx, rfl⟩ := ih _ h
        exact ⟨x, by simp [hx], rfl⟩

/-! ## The loop of `generateData` -/

theorem needsGen_eq_false (regenKeys : List String) (data : GoMap (List Nat)) (key : String) :
    ((dataAt data key).length ≠ 0 ∧ contains regenKeys key = false) ↔
      needsGen regenKeys data key = false := by
  simp [needsGen, List.length_eq_zero]

theorem genLoop_spec (rnd : RandSource) (regenKeys : List String) (length : Int)
    (byteLen : Bool) (encoding : String) (keys : List String) (hk : keys.Nodup)
    (st : GenState) :
    ∃ w : List String,
      (genLoop rnd regenKeys length byteLen encoding keys st).state.fields = st.fields ++ w
      ∧ w <+: keys.filter (needsGen regenKeys st.data)
      ∧ (∀ st1, genLoop rnd regenKeys length byteLen encoding keys st = GenLoop.done st1 →
          w = keys.filter (needsGen regenKeys st.data)
            ∧ st1.generatedCount = st.generatedCount + w.length)
      ∧ (∀ k, k ∉ w →
          (genLoop rnd regenKeys length byteLen encoding keys st).state.data.get? k
            = st.data.get? k)
      ∧ (∀ j (hj : j < w.length), ∃ value,
          generateValue (rnd (st.generatedCount + j)) length encoding byteLen = Res.ok value
            ∧ (genLoop rnd regenKeys length byteLen encoding keys st).state.data.get?
                (w.get ⟨j, hj⟩) = some value) := by
  induction keys generalizing st with
  | nil =>
      refine ⟨[], ?_, ?_, ?_, ?_, ?_⟩
      · simp [genLoop, GenLoop.state]
      · simp
      · intro st1 h
        simp [genLoop] at h
        subst h
        simp
      · intro k _
        simp [genLoop, GenLoop.state]
      · intro j hj
        simp at hj
  | cons key keys ih =>
      have hnot : key ∉ keys := (List.nodup_cons.mp hk).1
      have hk2 : keys.Nodup := (List.nodup_cons.mp hk).2
      by_cases hskip : needsGen regenKeys st.data key = false
      · have hc := (needsGen_eq_false regenKeys st.data key).mpr hskip
        obtain ⟨w, h1, h2, h3, h4, h5⟩ := ih hk2 st
        have hstep : genLoop rnd regenKeys length byteLen encoding (key :: keys) st
            = genLoop rnd regenKeys length byteLen encoding keys st := by
          rw [genLoop, if_pos hc]
        rw [hstep]
        refine ⟨w, h1, ?_, ?_, h4, h5⟩
        · simpa [List.filter_cons, hskip] using h2
        · intro st1 h
          simpa [List.filter_cons, hskip] using h3 st1 h
      · have hneed : needsGen regenKeys st.data key = true := by simpa using hskip
        have hc : ¬ ((dataAt st.data key).length ≠ 0 ∧ contains regenKeys key = false) := by
          rw [needsGen_eq_false]; simp [hneed]
        cases hgen : generateValue (rnd st.generatedCount) length encoding byteLen with
        | err e =>
            refine ⟨[], ?_, ?_, ?_, ?_, ?_⟩
            · simp only [genLoop, hc, if_false, hgen, GenLoop.state, List.append_nil]
            · simp
            · intro st1 h
              simp only [genLoop, hc, if_false, hgen, reduceCtorEq] at h
            · intro k _
              simp only [genLoop, hc, if_false, hgen, GenLoop.state, List.append_nil]
            · intro j hj
              simp at hj
        | fault =>
            refine ⟨[], ?_, ?_, ?_, ?_, ?_⟩
            · simp only [genLoop, hc, if_false, hgen, GenLoop.state, List.append_nil]
            · simp
            · intro st1 h
              simp only [genLoop, hc, if_false, hgen, reduceCtorEq] at h
            · intro k _
              simp only [genLoop, hc, if_false, hgen, GenLoop.state, List.append_nil]
            · intro j hj
              simp at hj
        | ok value =>
            cases hset : st.data.set key value with
            | none =>
                refine ⟨[], ?_, ?_, ?_, ?_, ?_⟩
                · simp only [genLoop, hc, if_false, hgen, hset, GenLoop.state, List.append_nil]
                · simp
                · intro st1 h
                  simp only [genLoop, hc, if_false, hgen, hset, reduceCtorEq] at h
                · intro k _
                  simp only [genLoop, hc, if_false, hgen, hset, GenLoop.state, List.append_nil]
                · intro j hj
                  simp at hj
            | some d =>
                have hget := GoMap.get?_set hset
                have hfilter : keys.filter (needsGen regenKeys d)
                    = keys.filter (needsGen regenKeys st.data) := by
                  apply List.filter_congr
                  intro x hx
                  have hxk : x ≠ key := fun hxe => hnot (hxe ▸ hx)
                  simp [needsGen, dataAt, hget, hxk]
                obtain ⟨w, h1, h2, h3, h4, h5⟩ :=
                  ih hk2 ⟨d, st.generatedCount + 1, st.fields ++ [key]⟩
                have hstep : genLoop rnd regenKeys length byteLen encoding (key :: keys) st
                    = genLoop rnd regenKeys length byteLen encoding keys
                        ⟨d, st.generatedCount + 1, st.fields ++ [key]⟩ := by
                  simp only [genLoop, hc, if_false, hgen, hset]
                have hkw : key ∉ w := by
                  intro hmem
                  have := (h2.subset hmem)
                  exact hnot (List.mem_filter.mp this).1
                rw [hstep]
                refine ⟨key :: w, ?_, ?_, ?_, ?_, ?_⟩
                · simpa using h1
                · simp only [List.filter_cons, hneed, if_true]
                  rw [← hfilter]
                  exact (List.prefix_cons_inj key).mpr h2
                · intro st1 h
                  obtain ⟨e1, e2⟩ := h3 st1 h
                  simp only at e1 e2
                  refine ⟨?_, ?_⟩
                  · simp only [List.filter_cons, hneed, if_true]
                    rw [← hfilter, ← e1]
                  · simp only [List.length_cons]
                    omega
                · intro k hknot
                  have hk1 : k ≠ key := fun hx => hknot (by simp [hx])
                  have hk3 : k ∉ w := fun hx => hknot (by simp [hx])
                  rw [h4 k hk3]
                  simp [hget, hk1]
                · intro j hj
                  cases j with
                  | zero =>
                      refine ⟨value, by simpa using hgen, ?_⟩
                      simp only [List.get_eq_getElem, List.getElem_cons_zero]
                      rw [h4 key hkw]
                      simp [hget]
                  | succ i =>
                      have hi : i < w.length := by simpa using hj
                      obtain ⟨v1, g1, g2⟩ := h5 i hi
                      refine ⟨v1, ?_, ?_⟩
                      · have : st.generatedCount + (i + 1) = st.generatedCount + 1 + i := by omega
                        rw [this]
                        exact g1
                      · simpa using g2

/-! ## The value generator and the annotation-driven pass -/

theorem hasDuplicate_iff (a : List String) : HasDuplicate a ↔ ¬ a.Nodup := by
  rw [List.nodup_iff_injective_get]
  unfold HasDuplicate Function.Injective
  push_neg
  constructor
  · rintro ⟨i, j, hne, heq⟩
    exact ⟨i, j, heq, hne⟩
  · rintro ⟨i, j, heq, hne⟩
    exact ⟨i, j, hne, heq⟩

theorem generateRandomString_bytes (src : Nat → Nat) (n : Nat) (encoding : String) :
    generateRandomString (Draw.fill src) (n : Int) encoding true
      = Res.ok (encodeToString encoding (fillBytes src n)) := by
  simp [generateRandomString, randRead]

theorem generateRandomStringRaw_ok (d : Draw) (n : Nat) (value : List Nat)
    (h : generateRandomStringRaw d (n : Int) = Res.ok value) :
    ∃ src, d = Draw.fill src ∧ value = fillBytes src n := by
  have hn : ¬ ((n : Int) < 0) := by omega
  cases d with
  | fail msg => simp [generateRandomStringRaw, randRead, hn] at h
  | fill src =>
      refine ⟨src, rfl, ?_⟩
      simp [generateRandomStringRaw, randRead, hn] at h
      exact h.symm

/-! ## The value generated for one key or field -/

theorem stringBytes_eq_nil (s : String) : stringBytes s = [] ↔ s.length = 0 := by
  cases s with
  | mk l =>
      cases l with
      | nil => simp [stringBytes]
      | cons c cs =>
          have hpos := Char.utf8Size_pos c
          constructor
          · intro h
            have h2 := congrArg List.length h
            simp [stringBytes, String.length_utf8EncodeChar] at h2
            omega
          · intro h
            simp [String.length] at h

theorem encodeToString_length_eq_zero (encoding : String) (b : List Nat) :
    (encodeToString encoding b).length = 0 ↔ b.length = 0 := by
  unfold encodeToString
  split_ifs
  · show (b64Encode encodeURL b).length = 0 ↔ _
    rw [b64Encode_length]; omega
  · show (b32Encode encodeStd32 b).length = 0 ↔ _
    rw [b32Encode_length]; omega
  · show (hexEncode b).length = 0 ↔ _
    rw [hexEncode_length]; omega
  · show (b64Encode encodeStd b).length = 0 ↔ _
    rw [b64Encode_length]; omega

/-- With a successful draw the generator returns a value, which is empty exactly
when the length is zero. -/
theorem GenerateRandomString_fill (src : Nat → Nat) (n : Nat) (encoding : String)
    (lenBytes : Bool) :
    ∃ v, GenerateRandomString (Draw.fill src) (n : Int) encoding lenBytes = Res.ok v
      ∧ (v = [] ↔ n = 0) := by
  have hn : ¬ ((n : Int) < 0) := by omega
  unfold GenerateRandomString generateValue
  by_cases hraw : encoding = "raw"
  · refine ⟨fillBytes src n, by simp [hraw, generateRandomStringRaw, randRead, hn], ?_⟩
    rw [← List.length_eq_zero, fillBytes_length]
  · cases lenBytes with
    | true =>
        refine ⟨stringBytes (encodeToString encoding (fillBytes src n)), ?_, ?_⟩
        · simp [hraw, generateRandomString_bytes]
        · rw [stringBytes_eq_nil, encodeToString_length_eq_zero, fillBytes_length]
    | false =>
        obtain ⟨s, h1, h2, _⟩ := generateRandomString_chars src n encoding
        refine ⟨stringBytes s, ?_, ?_⟩
        · simp [hraw, h1]
        · rw [stringBytes_eq_nil, h2]

theorem GenerateRandomString_cases (d : Draw) (n : Nat) (encoding : String) (lenBytes : Bool) :
    (∃ v, GenerateRandomString d (n : Int) encoding lenBytes = Res.ok v ∧ (v = [] ↔ n = 0))
      ∨ (∃ msg, d = Draw.fail msg
          ∧ GenerateRandomString d (n : Int) encoding lenBytes = Res.err (Err.random msg)) := by
  have hn : ¬ ((n : Int) < 0) := by omega
  cases d with
  | fill src => exact Or.inl (GenerateRandomString_fill src n encoding lenBytes)
  | fail msg =>
      right
      refine ⟨msg, rfl, ?_⟩
      unfold GenerateRandomString generateValue
      by_cases hraw : encoding = "raw"
      · simp [hraw, generateRandomStringRaw, randRead, hn]
      · simp [hraw, generateRandomString, randRead, hn]

/-- The outcome of `generateData` once the key list is known to be duplicate free
and both annotations resolve. -/
theorem generateData_unfold (env : GenEnv) (rnd : RandSource) (inst : Secret)
    (hk : (genKeysOf env inst).Nodup) (length : Nat) (byteLen : Bool) (encoding : String)
    (hlen : env.secretLengthFromAnnotation (selectionOf env inst).2 = Except.ok (length, byteLen))
    (henc : env.secretEncodingFromAnnotation (selectionOf env inst).2 = Except.ok encoding) :
    (generateData env rnd inst).written
        = (genLoop rnd (selectionOf env inst).1 (length : Int) byteLen encoding
            (genKeysOf env inst) ⟨inst.data, 0, []⟩).state.fields
      ∧ (generateData env rnd inst).secret.data
        = (genLoop rnd (selectionOf env inst).1 (length : Int) byteLen encoding
            (genKeysOf env inst) ⟨inst.data, 0, []⟩).state.data
      ∧ (∀ r, (generateData env rnd inst).ret = some (r, none) →
          ∃ st1, genLoop rnd (selectionOf env inst).1 (length : Int) byteLen encoding
            (genKeysOf env inst) ⟨inst.data, 0, []⟩ = GenLoop.done st1)
      ∧ ((generateData env rnd inst).secret.annotations = (selectionOf env inst).2
          ∨ (selectionOf env inst).2.set env.annotationSecretSecure "yes"
              = some (generateData env rnd inst).secret.annotations) := by
  have hu := (ensureUniqueness_eq_none _).mpr hk
  unfold genKeysOf at hu
  unfold selectionOf genKeysOf at hlen henc
  unfold generateData
  simp only [hu, hlen, henc, selectionOf, genKeysOf]
  cases hloop : genLoop rnd
      (regenSelect env
        (stringsSplit ((inst.annotations.get? env.annotationSecretAutoGenerate).getD ""))
        inst.annotations).1 (length : Int) byteLen encoding
      (stringsSplit ((inst.annotations.get? env.annotationSecretAutoGenerate).getD ""))
      ⟨inst.data, 0, []⟩ with
  | done st =>
      simp only [GenLoop.state]
      split_ifs
      · cases hset : (regenSelect env
            (stringsSplit ((inst.annotations.get? env.annotationSecretAutoGenerate).getD ""))
            inst.annotations).2.set env.annotationSecretSecure "yes" <;> simp
      · simp
  | failed e st => simp [GenLoop.state]
  | fault st => simp [GenLoop.state]

theorem generateData_duplicate (env : GenEnv) (rnd : RandSource) (inst : Secret)
    (h : ¬ (genKeysOf env inst).Nodup) :
    ∃ e, generateData env rnd inst = ⟨inst, some (Result.zero, some (Err.duplicate e)), []⟩ := by
  cases hu : ensureUniqueness (genKeysOf env inst) with
  | none => exact absurd ((ensureUniqueness_eq_none _).mp hu) h
  | some err =>
      obtain ⟨e, _, rfl⟩ := ensureUniquenessFrom_error _ _ _ hu
      refine ⟨e, ?_⟩
      unfold genKeysOf at hu
      unfold generateData
      simp only [hu]

theorem generateData_resolve_error (env : GenEnv) (rnd : RandSource) (inst : Secret)
    (hk : (genKeysOf env inst).Nodup)
    (h : (∃ err, env.secretLengthFromAnnotation (selectionOf env inst).2 = Except.error err)
      ∨ (∃ err, env.secretEncodingFromAnnotation (selectionOf env inst).2 = Except.error err)) :
    (generateData env rnd inst).written = []
      ∧ (generateData env rnd inst).secret.data = inst.data
      ∧ ∃ err, (generateData env rnd inst).ret = some (Result.zero, some err) := by
  have hu := (ensureUniqueness_eq_none _).mpr hk
  unfold genKeysOf at hu
  unfold selectionOf genKeysOf at h
  unfold generateData
  simp only [hu]
  cases hlen : env.secretLengthFromAnnotation
      (regenSelect env
        (stringsSplit ((inst.annotations.get? env.annotationSecretAutoGenerate).getD ""))
        inst.annotations).2 with
  | error err => simp
  | ok p =>
      obtain ⟨length, byteLen⟩ := p
      rcases h with ⟨err, he⟩ | ⟨err, he⟩
      · rw [hlen] at he
        cases he
      · simp [he]

/-- Whatever the outcome of `generateData`, the fields it sets are auto-generate
keys that were empty or queued for regeneration, and no other entry changes. -/
theorem generateData_frame (env : GenEnv) (rnd : RandSource) (inst : Secret) :
    (∀ k ∈ (generateData env rnd inst).written,
        k ∈ genKeysOf env inst ∧ needsGen (selectionOf env inst).1 inst.data k = true)
      ∧ (∀ k, k ∉ (generateData env rnd inst).written →
          (generateData env rnd inst).secret.data.get? k = inst.data.get? k) := by
  by_cases hk : (genKeysOf env inst).Nodup
  · cases hlen : env.secretLengthFromAnnotation (selectionOf env inst).2 with
    | error err =>
        obtain ⟨h1, h2, _⟩ := generateData_resolve_error env rnd inst hk (Or.inl ⟨err, hlen⟩)
        rw [h1, h2]
        simp
    | ok p =>
        obtain ⟨length, byteLen⟩ := p
        cases henc : env.secretEncodingFromAnnotation (selectionOf env inst).2 with
        | error err =>
            obtain ⟨h1, h2, _⟩ :=
              generateData_resolve_error env rnd inst hk (Or.inr ⟨err, henc⟩)
            rw [h1, h2]
            simp
        | ok encoding =>
            obtain ⟨hw, hd, _, _⟩ :=
              generateData_unfold env rnd inst hk length byteLen encoding hlen henc
            obtain ⟨w, h1, h2, _, h4, _⟩ := genLoop_spec rnd (selectionOf env inst).1
              (length : Int) byteLen encoding (genKeysOf env inst) hk ⟨inst.data, 0, []⟩
            simp only [List.nil_append] at h1 h4
            rw [hw, hd, h1]
            refine ⟨?_, h4⟩
            intro k hkw
            have := List.mem_filter.mp (h2.subset hkw)
            exact this
  · obtain ⟨e, he⟩ := generateData_duplicate env rnd inst hk
    rw [he]
    simp

/-- C1: in character-length mode, for every length `n ≥ 0`, every encoding string
(base64, base64url, base32, hex, or any other, which selects the default) and
every `n` bytes drawn, `generateRandomString(n, encoding, false)` returns without
a slice fault a string of exactly `n` characters. -/
theorem generateRandomString_char_mode_length (n : Nat) (encoding : String)
    (src : Nat → Nat) :
    ∃ s, generateRandomString (Draw.fill src) (n : Int) encoding false = Res.ok s
      ∧ s.length = n := by
  obtain ⟨s, h1, h2, _⟩ := generateRandomString_chars src n encoding
  exact ⟨s, h1, h2⟩

/-- C2: in byte-length mode, for every length `n ≥ 0`, each of the encodings
base64, base64url, base32 and hex, and every `n` bytes `b` drawn, the string
returned by `generateRandomString(n, encoding, true)` decodes under that encoding
to `b`, which has exactly `n` bytes. -/
theorem generateRandomString_byte_mode_decodes (n : Nat) (src : Nat → Nat) :
    (∃ s, generateRandomString (Draw.fill src) (n : Int) "base64" true = Res.ok s
        ∧ b64Decode encodeStd s.data = some (fillBytes src n))
      ∧ (∃ s, generateRandomString (Draw.fill src) (n : Int) "base64url" true = Res.ok s
        ∧ b64Decode encodeURL s.data = some (fillBytes src n))
      ∧ (∃ s, generateRandomString (Draw.fill src) (n : Int) "base32" true = Res.ok s
        ∧ b32Decode encodeStd32 s.data = some (fillBytes src n))
      ∧ (∃ s, generateRandomString (Draw.fill src) (n : Int) "hex" true = Res.ok s
        ∧ hexDecode s.data = some (fillBytes src n))
      ∧ (fillBytes src n).length = n := by
  have hb := fillBytes_lt src n
  refine ⟨⟨_, generateRandomString_bytes src n _, ?_⟩, ⟨_, generateRandomString_bytes src n _, ?_⟩,
    ⟨_, generateRandomString_bytes src n _, ?_⟩, ⟨_, generateRandomString_bytes src n _, ?_⟩,
    fillBytes_length src n⟩
  · have h := decodeString_encodeToString "base64" _ hb
    simpa [decodeString, encodeToString] using h
  · have h := decodeString_encodeToString "base64url" _ hb
    simpa [decodeString, encodeToString] using h
  · have h := decodeString_encodeToString "base32" _ hb
    simpa [decodeString, encodeToString] using h
  · have h := decodeString_encodeToString "hex" _ hb
    simpa [decodeString, encodeToString] using h

/-- C3: when the encoding of `generateData` resolves to `"raw"` and the length to
`length` (with the byte-length flag set or not), the `j`-th key that the pass
generates holds exactly the `length` bytes of the `j`-th draw, unencoded and
untruncated; and a pass that returns without error has generated every
auto-generate key that was empty or queued for regeneration. -/
theorem generateData_raw_bytes (env : GenEnv) (rnd : RandSource) (inst : Secret)
    (length : Nat) (byteLen : Bool)
    (hlen : env.secretLengthFromAnnotation (selectionOf env inst).2 = Except.ok (length, byteLen))
    (henc : env.secretEncodingFromAnnotation (selectionOf env inst).2 = Except.ok "raw") :
    (∀ j k, (generateData env rnd inst).written[j]? = some k →
        ∃ src, rnd j = Draw.fill src
          ∧ (generateData env rnd inst).secret.data.get? k = some (fillBytes src length)
          ∧ (fillBytes src length).length = length)
      ∧ (∀ r, (generateData env rnd inst).ret = some (r, none) →
          ∀ k ∈ genKeysOf env inst, needsGen (selectionOf env inst).1 inst.data k = true →
            k ∈ (generateData env rnd inst).written) := by
  by_cases hk : (genKeysOf env inst).Nodup
  · obtain ⟨hw, hd, hdone, _⟩ := generateData_unfold env rnd inst hk length byteLen "raw" hlen henc
    obtain ⟨w, h1, _, h3, _, h5⟩ := genLoop_spec rnd (selectionOf env inst).1 (length : Int)
      byteLen "raw" (genKeysOf env inst) hk ⟨inst.data, 0, []⟩
    simp only [List.nil_append, Nat.zero_add] at h1 h3 h5
    rw [hw, hd, h1]
    constructor
    · intro j k hjk
      obtain ⟨hj, hget⟩ := List.getElem?_eq_some.mp hjk
      obtain ⟨value, g1, g2⟩ := h5 j hj
      have g3 : generateRandomStringRaw (rnd j) (length : Int) = Res.ok value := by
        simpa [generateValue] using g1
      obtain ⟨src, hsrc, rfl⟩ := generateRandomStringRaw_ok _ _ _ g3
      refine ⟨src, hsrc, ?_, fillBytes_length src length⟩
      rw [← hget]
      simpa using g2
    · intro r hr k hkmem hneed
      obtain ⟨st1, hst1⟩ := hdone r hr
      rw [(h3 st1 hst1).1]
      exact List.mem_filter.mpr ⟨hkmem, hneed⟩
  · obtain ⟨e, he⟩ := generateData_duplicate env rnd inst hk
    rw [he]
    simp

/-- C7: `ensureUniqueness` returns an error exactly when its input holds the same
string at two different positions; and when the auto-generate list of a secret
holds a duplicate key, `generateData` returns that duplicate-key error, sets no
field, and leaves the secret (data and annotations) as it was. -/
theorem ensureUniqueness_duplicate_rejection :
    (∀ a : List String, (∃ err, ensureUniqueness a = some err) ↔ HasDuplicate a)
      ∧ (∀ (env : GenEnv) (rnd : RandSource) (inst : Secret),
          HasDuplicate (genKeysOf env inst) →
            (∃ e, (generateData env rnd inst).ret
                = some (Result.zero, some (Err.duplicate e)))
              ∧ (generateData env rnd inst).secret = inst
              ∧ (generateData env rnd inst).written = []) := by
  constructor
  · intro a
    rw [hasDuplicate_iff, ← ensureUniqueness_eq_none]
    cases ensureUniqueness a <;> simp
  · intro env rnd inst hdup
    obtain ⟨e, he⟩ := generateData_duplicate env rnd inst ((hasDuplicate_iff _).mp hdup)
    rw [he]
    exact ⟨⟨e, rfl⟩, rfl, rfl⟩

theorem regenSelect_directive (env : GenEnv) (genKeys : List String) (annotations : GoMap String)
    (regenerate : String)
    (hrule : (annotations.get? env.annotationSecretSecure).isSome = true
      ∨ env.regenerateInsecure = false)
    (hdir : annotations.get? env.annotationSecretRegenerate = some regenerate) :
    regenSelect env genKeys annotations
      = (if regenerate = "yes" then genKeys else stringsSplit regenerate,
          annotations.delete env.annotationSecretRegenerate) := by
  unfold regenSelect
  have hc : ¬ ((annotations.get? env.annotationSecretSecure).isNone = true
      ∧ env.regenerateInsecure = true) := by
    rintro ⟨h1, h2⟩
    rcases hrule with h | h
    · rw [Option.isNone_iff_eq_none] at h1
      rw [h1] at h
      cases h
    · rw [h] at h2
      cases h2
  rw [if_neg hc, hdir]

theorem regenSelect_no_directive (env : GenEnv) (genKeys : List String)
    (annotations : GoMap String)
    (hrule : (annotations.get? env.annotationSecretSecure).isSome = true
      ∨ env.regenerateInsecure = false)
    (hdir : annotations.get? env.annotationSecretRegenerate = none) :
    regenSelect env genKeys annotations = ([], annotations) := by
  unfold regenSelect
  have hc : ¬ ((annotations.get? env.annotationSecretSecure).isNone = true
      ∧ env.regenerateInsecure = true) := by
    rintro ⟨h1, h2⟩
    rcases hrule with h | h
    · rw [Option.isNone_iff_eq_none] at h1
      rw [h1] at h
      cases h
    · rw [h] at h2
      cases h2
  rw [if_neg hc, hdir]

/-- A pass that returns without error has set exactly the auto-generate keys that
were empty or queued for regeneration. -/
theorem generateData_written_of_ok (env : GenEnv) (rnd : RandSource) (inst : Secret)
    (r : Result) (hk : (genKeysOf env inst).Nodup)
    (hok : (generateData env rnd inst).ret = some (r, none)) :
    (generateData env rnd inst).written
        = (genKeysOf env inst).filter (needsGen (selectionOf env inst).1 inst.data)
      ∧ ((generateData env rnd inst).secret.annotations = (selectionOf env inst).2
          ∨ (selectionOf env inst).2.set env.annotationSecretSecure "yes"
              = some (generateData env rnd inst).secret.annotations) := by
  cases hlen : env.secretLengthFromAnnotation (selectionOf env inst).2 with
  | error err =>
      obtain ⟨_, _, e, he⟩ := generateData_resolve_error env rnd inst hk (Or.inl ⟨err, hlen⟩)
      rw [he] at hok
      simp at hok
  | ok p =>
      obtain ⟨length, byteLen⟩ := p
      cases henc : env.secretEncodingFromAnnotation (selectionOf env inst).2 with
      | error err =>
          obtain ⟨_, _, e, he⟩ :=
            generateData_resolve_error env rnd inst hk (Or.inr ⟨err, henc⟩)
          rw [he] at hok
          simp at hok
      | ok encoding =>
          obtain ⟨hw, _, hdone, hann⟩ :=
            generateData_unfold env rnd inst hk length byteLen encoding hlen henc
          obtain ⟨w, h1, _, h3, _, _⟩ := genLoop_spec rnd (selectionOf env inst).1
            (length : Int) byteLen encoding (genKeysOf env inst) hk ⟨inst.data, 0, []⟩
          obtain ⟨st1, hst1⟩ := hdone r hok
          simp only [List.nil_append] at h1
          refine ⟨?_, hann⟩
          rw [hw, h1, (h3 st1 hst1).1]

/-- With a random source that never fails and a data map that is not nil the loop
over `genKeys` completes. -/
theorem genLoop_done (rnd : RandSource) (hrnd : ∀ i, ∃ src, rnd i = Draw.fill src)
    (regenKeys : List String) (n : Nat) (byteLen : Bool) (encoding : String)
    (keys : List String) (st : GenState) (hdata : st.data ≠ none) :
    ∃ st1, genLoop rnd regenKeys (n : Int) byteLen encoding keys st = GenLoop.done st1 := by
  induction keys generalizing st with
  | nil => exact ⟨st, by simp [genLoop]⟩
  | cons key keys ih =>
      by_cases hc : (dataAt st.data key).length ≠ 0 ∧ contains regenKeys key = false
      · obtain ⟨st1, h1⟩ := ih st hdata
        exact ⟨st1, by rw [genLoop, if_pos hc]; exact h1⟩
      · obtain ⟨src, hsrc⟩ := hrnd st.generatedCount
        obtain ⟨v, hv, _⟩ := GenerateRandomString_fill src n encoding byteLen
        unfold GenerateRandomString at hv
        cases hd : st.data with
        | none => exact absurd hd hdata
        | some l =>
            obtain ⟨st1, h1⟩ := ih ⟨some (ainsert key v l), st.generatedCount + 1,
              st.fields ++ [key]⟩ (by simp)
            refine ⟨st1, ?_⟩
            rw [genLoop, if_neg hc, hsrc, hv]
            simp only [hd, GoMap.set]
            exact h1

/-- When the key list is duplicate free, both annotations resolve, the random
source does not fail and neither map of the secret is nil, `generateData`
returns `Result{}` and a nil error. -/
theorem generateData_succeeds (env : GenEnv) (rnd : RandSource) (inst : Secret)
    (hk : (genKeysOf env inst).Nodup) (length : Nat) (byteLen : Bool) (encoding : String)
    (hlen : env.secretLengthFromAnnotation (selectionOf env inst).2 = Except.ok (length, byteLen))
    (henc : env.secretEncodingFromAnnotation (selectionOf env inst).2 = Except.ok encoding)
    (hrnd : ∀ i, ∃ src, rnd i = Draw.fill src)
    (hdata : inst.data ≠ none) (hann : inst.annotations ≠ none) :
    (generateData env rnd inst).ret = some (Result.zero, none) := by
  have hu := (ensureUniqueness_eq_none _).mpr hk
  obtain ⟨st1, hloop⟩ := genLoop_done rnd hrnd (selectionOf env inst).1 length byteLen encoding
    (genKeysOf env inst) ⟨inst.data, 0, []⟩ hdata
  have hsel : ∃ l, (selectionOf env inst).2 = some l := by
    unfold selectionOf regenSelect
    cases ha : inst.annotations with
    | none => exact absurd ha hann
    | some l =>
        split_ifs
        · exact ⟨l, rfl⟩
        · split
          · exact ⟨_, rfl⟩
          · exact ⟨l, rfl⟩
  obtain ⟨l, hl⟩ := hsel
  unfold genKeysOf at hu
  unfold selectionOf genKeysOf at hlen henc hloop hl
  rw [hl] at hlen henc
  unfold generateData
  simp only [hu, hl, hlen, henc, hloop, GoMap.set]
  split_ifs <;> rfl

/-- The `j`-th key that a pass of `generateData` sets holds, in the secret the
pass leaves, the value generated from the `j`-th draw with the length and the
encoding that the annotations resolve to. -/
theorem generateData_written_values (env : GenEnv) (rnd : RandSource) (inst : Secret)
    (hk : (genKeysOf env inst).Nodup) (j : Nat) (k : String)
    (hjk : (generateData env rnd inst).written[j]? = some k) :
    ∃ length byteLen encoding value,
      env.secretLengthFromAnnotation (selectionOf env inst).2 = Except.ok (length, byteLen)
        ∧ env.secretEncodingFromAnnotation (selectionOf env inst).2 = Except.ok encoding
        ∧ generateValue (rnd j) (length : Int) encoding byteLen = Res.ok value
        ∧ (generateData env rnd inst).secret.data.get? k = some value := by
  cases hlen : env.secretLengthFromAnnotation (selectionOf env inst).2 with
  | error err =>
      obtain ⟨he, _⟩ := generateData_resolve_error env rnd inst hk (Or.inl ⟨err, hlen⟩)
      rw [he] at hjk
      simp at hjk
  | ok p =>
      obtain ⟨length, byteLen⟩ := p
      cases henc : env.secretEncodingFromAnnotation (selectionOf env inst).2 with
      | error err =>
          obtain ⟨he, _⟩ := generateData_resolve_error env rnd inst hk (Or.inr ⟨err, henc⟩)
          rw [he] at hjk
          simp at hjk
      | ok encoding =>
          obtain ⟨hw, hd, _, _⟩ :=
            generateData_unfold env rnd inst hk length byteLen encoding hlen henc
          obtain ⟨w, h1, _, _, _, h5⟩ := genLoop_spec rnd (selectionOf env inst).1
            (length : Int) byteLen encoding (genKeysOf env inst) hk ⟨inst.data, 0, []⟩
          simp only [List.nil_append, Nat.zero_add] at h1 h5
          rw [hw, h1] at hjk
          obtain ⟨hj, hget⟩ := List.getElem?_eq_some.mp hjk
          obtain ⟨value, g1, g2⟩ := h5 j hj
          refine ⟨length, byteLen, encoding, value, rfl, rfl, g1, ?_⟩
          rw [hd, ← hget]
          simpa using g2

/-- C10 (amended): for a secret with pairwise distinct auto-generate keys to which
the first priority rule does not apply, the keys that a pass of `generateData`
returning without error overwrites are: every auto-generate key when the
directive is `"yes"`; the auto-generate keys that are named in the directive's
list or whose current value is empty when the directive has another value; only
the auto-generate keys whose current value is empty when there is no directive.
The `j`-th key that the pass overwrites holds afterwards the value generated
from the `j`-th draw with the resolved length and encoding, and every entry
under another key is unchanged. The pass returns without error whenever both
annotations resolve, the random source does not fail and neither map of the
secret is nil. -/
theorem generateData_regeneration_set (env : GenEnv) (rnd : RandSource) (inst : Secret)
    (hk : (genKeysOf env inst).Nodup)
    (hrule : (inst.annotations.get? env.annotationSecretSecure).isSome = true
      ∨ env.regenerateInsecure = false) :
    (∀ r, (generateData env rnd inst).ret = some (r, none) →
        (inst.annotations.get? env.annotationSecretRegenerate = some "yes" →
          (generateData env rnd inst).written = genKeysOf env inst)
        ∧ (∀ regenerate,
            inst.annotations.get? env.annotationSecretRegenerate = some regenerate →
            regenerate ≠ "yes" →
            (generateData env rnd inst).written = (genKeysOf env inst).filter
              (fun k => decide (k ∈ stringsSplit regenerate)
                || decide (dataAt inst.data k = [])))
        ∧ (inst.annotations.get? env.annotationSecretRegenerate = none →
            (generateData env rnd inst).written = (genKeysOf env inst).filter
              (fun k => decide (dataAt inst.data k = []))))
      ∧ (∀ j k, (generateData env rnd inst).written[j]? = some k →
          ∃ length byteLen encoding value,
            env.secretLengthFromAnnotation (selectionOf env inst).2
                = Except.ok (length, byteLen)
              ∧ env.secretEncodingFromAnnotation (selectionOf env inst).2
                = Except.ok encoding
              ∧ generateValue (rnd j) (length : Int) encoding byteLen = Res.ok value
              ∧ (generateData env rnd inst).secret.data.get? k = some value)
      ∧ (∀ k, k ∉ (generateData env rnd inst).written →
          (generateData env rnd inst).secret.data.get? k = inst.data.get? k)
      ∧ (∀ length byteLen encoding,
          env.secretLengthFromAnnotation (selectionOf env inst).2
            = Except.ok (length, byteLen) →
          env.secretEncodingFromAnnotation (selectionOf env inst).2 = Except.ok encoding →
          (∀ i, ∃ src, rnd i = Draw.fill src) →
          inst.data ≠ none → inst.annotations ≠ none →
          (generateData env rnd inst).ret = some (Result.zero, none)) := by
  refine ⟨?_, generateData_written_values env rnd inst hk,
    (generateData_frame env rnd inst).2, ?_⟩
  · intro r hok
    obtain ⟨hw, _⟩ := generateData_written_of_ok env rnd inst r hk hok
    refine ⟨?_, ?_, ?_⟩
    · intro hdir
      rw [hw, selectionOf, regenSelect_directive env _ _ "yes" hrule hdir]
      simp only [if_true]
      rw [List.filter_eq_self]
      intro k hkmem
      simp [needsGen, (contains_iff _ _).mpr hkmem]
    · intro regenerate hdir hne
      rw [hw, selectionOf, regenSelect_directive env _ _ regenerate hrule hdir]
      simp only [if_neg hne]
      apply List.filter_congr
      intro k _
      by_cases hkr : k ∈ stringsSplit regenerate
      · simp [needsGen, hkr, (contains_iff _ _).mpr hkr]
      · have hcf : contains (stringsSplit regenerate) k = false := by
          rw [← Bool.not_eq_true, contains_iff]; exact hkr
        simp [needsGen, hkr, hcf]
    · intro hdir
      rw [hw, selectionOf, regenSelect_no_directive env _ _ hrule hdir]
      apply List.filter_congr
      intro k _
      simp [needsGen, contains]
  · intro length byteLen encoding hlen henc hrnd hdata hann
    exact generateData_succeeds env rnd inst hk length byteLen encoding hlen henc hrnd hdata hann

/-- C10, the claim as stated fails: with auto-generate `a,b,c` and directive `a`,
the empty key `b`, which the directive does not name, is overwritten as well. -/
theorem generateData_directive_list_counterexample :
    (genKeysOf exampleEnv directiveSecret).Nodup
      ∧ exampleEnv.regenerateInsecure = false
      ∧ directiveSecret.annotations.get? exampleEnv.annotationSecretRegenerate = some "a"
      ∧ (generateData exampleEnv exampleRand directiveSecret).ret = some (Result.zero, none)
      ∧ (generateData exampleEnv exampleRand directiveSecret).written = ["a", "b"]
      ∧ "b" ∈ genKeysOf exampleEnv directiveSecret
      ∧ "b" ∉ stringsSplit "a"
      ∧ (generateData exampleEnv exampleRand directiveSecret).secret.data.get? "b"
          ≠ directiveSecret.data.get? "b" := by
  decide

/-- C10, an instance of the amended claim: directive `a` on `a,b,c` with `b` empty. -/
theorem generateData_regeneration_set_witness :
    (genKeysOf exampleEnv directiveSecret).Nodup
      ∧ exampleEnv.regenerateInsecure = false
      ∧ (generateData exampleEnv exampleRand directiveSecret).ret = some (Result.zero, none)
      ∧ (generateData exampleEnv exampleRand directiveSecret).written
          = (genKeysOf exampleEnv directiveSecret).filter
              (fun k => decide (k ∈ stringsSplit "a")
                || decide (dataAt directiveSecret.data k = [])) :=
  ⟨by decide, rfl, by decide,
    ((generateData_regeneration_set exampleEnv exampleRand directiveSecret
      (by decide) (Or.inr rfl)).1 Result.zero (by decide)).2.1 "a" (by decide) (by decide)⟩

/-- C9 (amended): for a secret that carries the regenerate annotation, to which
the first priority rule does not apply (the securely-generated marker is present
or the regenerate-insecure policy is off), and on which `generateData` returns
without error, the regenerate annotation is absent afterwards, and a second pass
on the resulting secret sets only keys whose value is empty and leaves every
non-empty entry as it is. The marker and the directive are distinct annotations. -/
theorem generateData_regenerate_one_shot (env : GenEnv) (rnd1 rnd2 : RandSource)
    (inst : Secret) (regenerate : String) (r : Result)
    (hnames : env.annotationSecretSecure ≠ env.annotationSecretRegenerate)
    (hdir : inst.annotations.get? env.annotationSecretRegenerate = some regenerate)
    (hrule : (inst.annotations.get? env.annotationSecretSecure).isSome = true
      ∨ env.regenerateInsecure = false)
    (hok : (generateData env rnd1 inst).ret = some (r, none)) :
    (generateData env rnd1 inst).secret.annotations.get? env.annotationSecretRegenerate = none
      ∧ (∀ k ∈ (generateData env rnd2 (generateData env rnd1 inst).secret).written,
          dataAt (generateData env rnd1 inst).secret.data k = [])
      ∧ (∀ k, dataAt (generateData env rnd1 inst).secret.data k ≠ [] →
          (generateData env rnd2 (generateData env rnd1 inst).secret).secret.data.get? k
            = (generateData env rnd1 inst).secret.data.get? k) := by
  have hk : (genKeysOf env inst).Nodup := by
    by_contra hnd
    obtain ⟨e, he⟩ := generateData_duplicate env rnd1 inst hnd
    rw [he] at hok
    simp at hok
  obtain ⟨_, hann⟩ := generateData_written_of_ok env rnd1 inst r hk hok
  have hsel : (selectionOf env inst).2 = inst.annotations.delete env.annotationSecretRegenerate := by
    rw [selectionOf, regenSelect_directive env _ _ regenerate hrule hdir]
  rw [hsel] at hann
  -- the annotations after the first pass
  have hregen : (generateData env rnd1 inst).secret.annotations.get?
      env.annotationSecretRegenerate = none := by
    rcases hann with h | h
    · rw [h, GoMap.get?_delete]
      simp
    · rw [GoMap.get?_set h, GoMap.get?_delete]
      simp [Ne.symm hnames]
  have hrule2 : ((generateData env rnd1 inst).secret.annotations.get?
      env.annotationSecretSecure).isSome = true ∨ env.regenerateInsecure = false := by
    rcases hrule with hm | hp
    · left
      rcases hann with h | h
      · rw [h, GoMap.get?_delete]
        simpa [hnames] using hm
      · rw [GoMap.get?_set h]
        simp
    · exact Or.inr hp
  have hsel2 : (selectionOf env (generateData env rnd1 inst).secret).1 = [] := by
    rw [selectionOf, regenSelect_no_directive env _ _ hrule2 hregen]
  obtain ⟨hf1, hf2⟩ := generateData_frame env rnd2 (generateData env rnd1 inst).secret
  rw [hsel2] at hf1
  have hempty : ∀ k ∈ (generateData env rnd2 (generateData env rnd1 inst).secret).written,
      dataAt (generateData env rnd1 inst).secret.data k = [] := by
    intro k hkw
    have := (hf1 k hkw).2
    simpa [needsGen, contains] using this
  refine ⟨hregen, hempty, ?_⟩
  intro k hne
  exact hf2 k (fun hkw => hne (hempty k hkw))

/-- C9, the claim as stated fails: when the marker is absent and the
regenerate-insecure policy is on, the first rule applies, the regenerate
annotation stays, and the next pass regenerates the non-empty key again. -/
theorem generateData_regenerate_kept_counterexample :
    unmarkedSecret.annotations.get? insecureEnv.annotationSecretRegenerate = some "yes"
      ∧ (generateData insecureEnv exampleRand unmarkedSecret).ret = some (Result.zero, none)
      ∧ (generateData insecureEnv exampleRand unmarkedSecret).secret.annotations.get?
          insecureEnv.annotationSecretRegenerate = some "yes"
      ∧ dataAt (generateData insecureEnv exampleRand unmarkedSecret).secret.data "a" ≠ []
      ∧ (generateData insecureEnv otherRand
          (generateData insecureEnv exampleRand unmarkedSecret).secret).written = ["a"] := by
  decide

/-- C9, an instance of the amended claim: the same secret with the policy off. -/
theorem generateData_regenerate_one_shot_witness :
    exampleEnv.annotationSecretSecure ≠ exampleEnv.annotationSecretRegenerate
      ∧ unmarkedSecret.annotations.get? exampleEnv.annotationSecretRegenerate = some "yes"
      ∧ exampleEnv.regenerateInsecure = false
      ∧ (generateData exampleEnv exampleRand unmarkedSecret).ret = some (Result.zero, none)
      ∧ (generateData exampleEnv exampleRand unmarkedSecret).secret.annotations.get?
          exampleEnv.annotationSecretRegenerate = none :=
  ⟨by decide, by decide, rfl, by decide,
    (generateData_regenerate_one_shot exampleEnv exampleRand otherRand unmarkedSecret "yes"
      Result.zero (by decide) (by decide) (Or.inr rfl) (by decide)).1⟩

/-- C3, an instance: with the raw encoding and length `2b`, the empty key `b`
receives the two bytes of the first draw. -/
theorem generateData_raw_bytes_witness :
    rawEnv.secretLengthFromAnnotation (selectionOf rawEnv directiveSecret).2 = Except.ok (2, true)
      ∧ rawEnv.secretEncodingFromAnnotation (selectionOf rawEnv directiveSecret).2
          = Except.ok "raw"
      ∧ (generateData rawEnv exampleRand directiveSecret).written[1]? = some "b"
      ∧ ∃ src, exampleRand 1 = Draw.fill src
          ∧ (generateData rawEnv exampleRand directiveSecret).secret.data.get? "b"
              = some (fillBytes src 2)
          ∧ (fillBytes src 2).length = 2 :=
  ⟨rfl, rfl, by decide,
    (generateData_raw_bytes rawEnv exampleRand directiveSecret 2 true rfl rfl).1 1 "b"
      (by decide)⟩

/-- C7, an instance: the auto-generate list `a,a` is rejected and nothing changes. -/
theorem ensureUniqueness_duplicate_rejection_witness :
    HasDuplicate (genKeysOf exampleEnv duplicateSecret)
      ∧ (generateData exampleEnv exampleRand duplicateSecret).secret = duplicateSecret :=
  ⟨⟨⟨0, by decide⟩, ⟨1, by decide⟩, by decide, by decide⟩,
    (ensureUniqueness_duplicate_rejection.2 exampleEnv exampleRand duplicateSecret
      ⟨⟨0, by decide⟩, ⟨1, by decide⟩, by decide, by decide⟩).2.1⟩

/-! ## The loops over `fieldNames` -/

/-- The loop over `fieldNames` never faults; when it completes, a field that needed
a value holds a generated one (empty exactly when the length is zero) and every
other key is as in the initial values. -/
theorem fieldLoop_spec (rnd : RandSource) (needs : String → Bool) (n : Nat) (encoding : String)
    (isByteLength : Bool) (fields : List String) (values : List (String × List Nat))
    (draws : Nat) :
    fieldLoop rnd needs (n : Int) encoding isByteLength fields values draws ≠ FieldLoop.fault
      ∧ (∀ values1,
          fieldLoop rnd needs (n : Int) encoding isByteLength fields values draws
            = FieldLoop.done values1 →
          (∀ k, k ∈ fields → needs k = true →
            ∃ v, alookup k values1 = some v ∧ (v = [] ↔ n = 0))
          ∧ (∀ k, ¬ (k ∈ fields ∧ needs k = true) → alookup k values1 = alookup k values)) := by
  induction fields generalizing values draws with
  | nil =>
      refine ⟨by simp [fieldLoop], ?_⟩
      intro values1 h
      simp only [fieldLoop, FieldLoop.done.injEq] at h
      subst h
      simp
  | cons field rest ih =>
      by_cases hneed : needs field = true
      · rcases GenerateRandomString_cases (rnd draws) n encoding isByteLength with
          ⟨v, hv, hve⟩ | ⟨msg, _, hv⟩
        · have hstep : fieldLoop rnd needs (n : Int) encoding isByteLength (field :: rest)
              values draws
              = fieldLoop rnd needs (n : Int) encoding isByteLength rest
                  (ainsert field v values) (draws + 1) := by
            simp only [fieldLoop, hneed, if_true, hv]
          rw [hstep]
          obtain ⟨h1, h2⟩ := ih (ainsert field v values) (draws + 1)
          refine ⟨h1, ?_⟩
          intro values1 hdone
          obtain ⟨g1, g2⟩ := h2 values1 hdone
          constructor
          · intro k hk hnk
            by_cases hkr : k ∈ rest
            · exact g1 k hkr hnk
            · have hkf : k = field := by
                rcases List.mem_cons.mp hk with h | h
                · exact h
                · exact absurd h hkr
              subst hkf
              refine ⟨v, ?_, hve⟩
              rw [g2 k (fun hc => hkr hc.1), alookup_ainsert]
              simp
          · intro k hk
            have hk1 : ¬ (k ∈ rest ∧ needs k = true) := fun hc => hk ⟨by simp [hc.1], hc.2⟩
            have hk2 : k ≠ field := fun hc => hk ⟨by simp [hc], hc ▸ hneed⟩
            rw [g2 k hk1, alookup_ainsert]
            simp [hk2]
        · have hstep : fieldLoop rnd needs (n : Int) encoding isByteLength (field :: rest)
              values draws = FieldLoop.failed (Err.random msg) := by
            simp only [fieldLoop, hneed, if_true, hv]
          rw [hstep]
          refine ⟨by simp, ?_⟩
          intro values1 h
          cases h
      · have hstep : fieldLoop rnd needs (n : Int) encoding isByteLength (field :: rest)
            values draws
            = fieldLoop rnd needs (n : Int) encoding isByteLength rest values draws := by
          simp only [fieldLoop, hneed, Bool.false_eq_true, if_false]
        rw [hstep]
        obtain ⟨h1, h2⟩ := ih values draws
        refine ⟨h1, ?_⟩
        intro values1 hdone
        obtain ⟨g1, g2⟩ := h2 values1 hdone
        constructor
        · intro k hk hnk
          rcases List.mem_cons.mp hk with h | h
          · subst h
            exact absurd hnk hneed
          · exact g1 k h hnk
        · intro k hk
          exact g2 k (fun hc => hk ⟨by simp [hc.1], hc.2⟩)

/-- With a random source that never fails the loop over `fieldNames` completes. -/
theorem fieldLoop_done (rnd : RandSource) (hrnd : ∀ i, ∃ src, rnd i = Draw.fill src)
    (needs : String → Bool) (n : Nat) (encoding : String) (isByteLength : Bool)
    (fields : List String) (values : List (String × List Nat)) (draws : Nat) :
    ∃ values1, fieldLoop rnd needs (n : Int) encoding isByteLength fields values draws
      = FieldLoop.done values1 := by
  induction fields generalizing values draws with
  | nil => exact ⟨values, by simp [fieldLoop]⟩
  | cons field rest ih =>
      by_cases hneed : needs field = true
      · obtain ⟨src, hsrc⟩ := hrnd draws
        obtain ⟨v, hv, _⟩ := GenerateRandomString_fill src n encoding isByteLength
        obtain ⟨values1, h1⟩ := ih (ainsert field v values) (draws + 1)
        refine ⟨values1, ?_⟩
        simp only [fieldLoop, hneed, if_true, hsrc, hv]
        exact h1
      · obtain ⟨values1, h1⟩ := ih values draws
        refine ⟨values1, ?_⟩
        simp only [fieldLoop, hneed, Bool.false_eq_true, if_false]
        exact h1

/-! ## Literal values and the merge into the secret -/

theorem foldl_ainsert_lookup (g : String → List Nat) (keys : List String)
    (init : List (String × List Nat)) (k : String) (v : List Nat)
    (h : alookup k (keys.foldl (fun values key => ainsert key (g key) values) init) = some v) :
    k ∈ keys ∨ alookup k init = some v := by
  induction keys generalizing init with
  | nil => exact Or.inr (by simpa using h)
  | cons key rest ih =>
      simp only [List.foldl_cons] at h
      rcases ih _ h with h1 | h1
      · exact Or.inl (by simp [h1])
      · rw [alookup_ainsert] at h1
        by_cases hk : k = key
        · exact Or.inl (by simp [hk])
        · simp only [hk, if_false] at h1
          exact Or.inr h1

/-- Only keys of the literal data of the spec have a literal value. -/
theorem literalValues_lookup (data : GoMap String) (k : String) (v : List Nat)
    (h : alookup k (literalValues data) = some v) : k ∈ data.keys := by
  unfold literalValues at h
  rcases foldl_ainsert_lookup _ _ _ _ _ h with h1 | h1
  · exact h1
  · simp [alookup] at h1

theorem alookup_isSome_iff {V : Type} (k : String) (l : List (String × V)) :
    (alookup k l).isSome = true ↔ k ∈ l.map Prod.fst := by
  induction l with
  | nil => simp [alookup]
  | cons p rest ih =>
      obtain ⟨k1, v1⟩ := p
      by_cases h : k1 = k
      · simp [alookup, h]
      · simp [alookup, h, ih, Ne.symm h]

/-- After the merge a key of `keys` holds its value of `values`, any other key is
as before. -/
theorem mergeValues_get? (values : List (String × List Nat)) (keys : List String)
    (d d1 : GoMap (List Nat)) (h : mergeValues values keys d = some d1) (k : String) :
    d1.get? k = if k ∈ keys then some ((alookup k values).getD []) else d.get? k := by
  induction keys generalizing d with
  | nil =>
      simp only [mergeValues, Option.some.injEq] at h
      subst h
      simp
  | cons key rest ih =>
      cases hset : d.set key ((alookup key values).getD []) with
      | none => simp [mergeValues, hset] at h
      | some d2 =>
          simp only [mergeValues, hset] at h
          rw [ih d2 h, GoMap.get?_set hset]
          by_cases hkr : k ∈ rest
          · simp [hkr]
          · by_cases hk : k = key
            · simp [hk]
            · simp [hkr, hk]

/-- A merge of values that the map already holds leaves the map as it is. -/
theorem mergeValues_eq_self (values : List (String × List Nat)) (keys : List String)
    (d : GoMap (List Nat))
    (h : ∀ k ∈ keys, d.get? k = some ((alookup k values).getD [])) :
    mergeValues values keys d = some d := by
  induction keys with
  | nil => simp [mergeValues]
  | cons key rest ih =>
      have hkey := h key (by simp)
      cases d with
      | none => simp [GoMap.get?] at hkey
      | some l =>
          have hl : ainsert key ((alookup key values).getD []) l = l :=
            ainsert_eq_self _ _ _ (by simpa [GoMap.get?] using hkey)
          simp only [mergeValues, GoMap.set, hl]
          exact ih (fun k hk => h k (by simp [hk]))

/-- Whether the merge faults depends on the keys only, not on the values. -/
theorem mergeValues_eq_none (values : List (String × List Nat)) (keys : List String)
    (d : GoMap (List Nat)) :
    mergeValues values keys d = none ↔ (d = none ∧ keys ≠ []) := by
  induction keys generalizing d with
  | nil => simp [mergeValues]
  | cons key rest ih =>
      cases d with
      | none => simp [mergeValues, GoMap.set]
      | some l => simp [mergeValues, GoMap.set, ih]

/-! ## `Reconcile` -/

theorem ownedByCR_eq_false (refs : List OwnerReference) :
    ownedByCR refs = false ↔ ∀ ref ∈ refs, ref.kind ≠ "String" := by
  induction refs with
  | nil => simp [ownedByCR]
  | cons ref rest ih =>
      by_cases h : ref.kind = "String"
      · simp [ownedByCR, h]
      · simp [ownedByCR, h, ih]

theorem finishStatus_ret {σ : Type} (env : RecEnv) (c : Client σ) (inst : StringCR)
    (sec : Secret) (calls : List Call) (st : σ) :
    (∀ r e, (finishStatus env c inst sec calls st).ret ≠ some (r, some (Err.duplicate e)))
      ∧ (∃ more, (finishStatus env c inst sec calls st).calls = calls ++ more
          ∧ ∀ x ∈ more, x.isCreate = false ∧ x.isUpdate = false) := by
  unfold finishStatus
  cases env.getReference sec with
  | error msg => exact ⟨by simp, [], by simp⟩
  | ok stringRef =>
      simp only
      rcases hs : c.statusUpdate ⟨inst.name, inst.uid, inst.spec,
        ⟨ReconcilerState.completed, some stringRef⟩⟩ st with ⟨_ | err, st1⟩
      · exact ⟨by simp, _, rfl, by simp [Call.isCreate, Call.isUpdate]⟩
      · exact ⟨by simp, _, rfl, by simp [Call.isCreate, Call.isUpdate]⟩

/-- Without an owner reference of kind `"String"` a pass issues no write and leaves
the store as it is; it returns success when the random source does not fail. -/
theorem Reconcile_skip {σ : Type} (env : RecEnv) (c : Client σ) (rnd : RandSource) (st : σ)
    (inst : StringCR) (existing : Secret)
    (hinst : c.getString st = Except.ok inst) (hsec : c.getSecret st = Except.ok existing)
    (hno : ownedByCR existing.ownerReferences = false) :
    (Reconcile env c rnd st).calls = [] ∧ (Reconcile env c rnd st).state = st
      ∧ ((∀ i, ∃ src, rnd i = Draw.fill src) →
          (Reconcile env c rnd st).ret = some (Result.zero, none)) := by
  unfold Reconcile
  simp only [hinst, hsec]
  cases hloop : fieldLoop rnd (needsValue existing inst.spec.forceRecreate)
      ((env.parseByteLength inst.spec.length).1 : Nat) inst.spec.encoding
      (env.parseByteLength inst.spec.length).2.1 inst.spec.fieldNames
      (literalValues inst.spec.data) 0 with
  | done values1 => simp [hno]
  | failed e =>
      refine ⟨rfl, rfl, ?_⟩
      intro hrnd
      obtain ⟨values1, h1⟩ := fieldLoop_done rnd hrnd
        (needsValue existing inst.spec.forceRecreate) (env.parseByteLength inst.spec.length).1
        inst.spec.encoding (env.parseByteLength inst.spec.length).2.1 inst.spec.fieldNames
        (literalValues inst.spec.data) 0
      rw [hloop] at h1
      cases h1
  | fault =>
      exact absurd hloop (fieldLoop_spec rnd _ _ _ _ _ _ _).1

/-- C4: for an existing secret none of whose owner references has kind `"String"`
and every spec (recreate flag and empty fields included), `Reconcile` issues no
write against the store and leaves the store as it is, whatever the random
source; and when the random source does not fail it returns success without
requeue. -/
theorem Reconcile_not_owned_untouched {σ : Type} (env : RecEnv) (c : Client σ)
    (rnd : RandSource) (st : σ) (inst : StringCR) (existing : Secret)
    (hinst : c.getString st = Except.ok inst) (hsec : c.getSecret st = Except.ok existing)
    (hown : ∀ ref ∈ existing.ownerReferences, ref.kind ≠ "String") :
    (Reconcile env c rnd st).calls = []
      ∧ (Reconcile env c rnd st).state = st
      ∧ c.getSecret (Reconcile env c rnd st).state = Except.ok existing
      ∧ ((∀ i, ∃ src, rnd i = Draw.fill src) →
          (Reconcile env c rnd st).ret = some (Result.zero, none)) := by
  have hno := (ownedByCR_eq_false _).mpr hown
  have key := Reconcile_skip env c rnd st inst existing hinst hsec hno
  obtain ⟨h1, h2, h3⟩ := key
  refine ⟨h1, h2, ?_, h3⟩
  rw [h2, hsec]

/-- When the secret is owned, its data map is not nil and the random source does
not fail, `Reconcile` issues the update as its first write. -/
theorem Reconcile_update_issued {σ : Type} (env : RecEnv) (c : Client σ)
    (rnd : RandSource) (st : σ) (inst : StringCR) (existing : Secret)
    (hinst : c.getString st = Except.ok inst) (hsec : c.getSecret st = Except.ok existing)
    (hown : ownedByCR existing.ownerReferences = true) (hdata : existing.data ≠ none)
    (hrnd : ∀ i, ∃ src, rnd i = Draw.fill src) :
    ∃ t, (Reconcile env c rnd st).calls.head? = some (Call.update t) := by
  obtain ⟨values1, hdone⟩ := fieldLoop_done rnd hrnd
    (needsValue existing inst.spec.forceRecreate) (env.parseByteLength inst.spec.length).1
    inst.spec.encoding (env.parseByteLength inst.spec.length).2.1 inst.spec.fieldNames
    (literalValues inst.spec.data) 0
  cases hmerge : mergeValues values1 (values1.map Prod.fst) existing.data with
  | none => exact absurd ((mergeValues_eq_none _ _ _).mp hmerge).1 hdata
  | some data1 =>
      refine ⟨⟨data1, existing.annotations, existing.ownerReferences, existing.secretType⟩, ?_⟩
      unfold Reconcile
      simp only [hinst, hsec, hdone, hown, hmerge, Bool.true_eq_false, if_false]
      rcases hu : c.update ⟨data1, existing.annotations, existing.ownerReferences,
        existing.secretType⟩ st with ⟨_ | uerr, st1⟩
      · obtain ⟨_, more, hm, _⟩ := finishStatus_ret env c inst
          ⟨data1, existing.annotations, existing.ownerReferences, existing.secretType⟩
          [Call.update ⟨data1, existing.annotations, existing.ownerReferences,
            existing.secretType⟩] st1
        simp only [hm]
        simp
      · simp

/-- Every update that `Reconcile` issues with the recreate flag off changes only
declared fields whose current value is empty and keys of the literal data. -/
theorem Reconcile_update_changes {σ : Type} (env : RecEnv) (c : Client σ)
    (rnd : RandSource) (st : σ) (inst : StringCR) (existing t : Secret)
    (hinst : c.getString st = Except.ok inst) (hsec : c.getSecret st = Except.ok existing)
    (hrec : inst.spec.forceRecreate = false)
    (hcall : Call.update t ∈ (Reconcile env c rnd st).calls) :
    ∀ k, t.data.get? k ≠ existing.data.get? k →
      (k ∈ inst.spec.fieldNames ∧ dataAt existing.data k = []) ∨ k ∈ inst.spec.data.keys := by
  unfold Reconcile at hcall
  simp only [hinst, hsec] at hcall
  cases hloop : fieldLoop rnd (needsValue existing inst.spec.forceRecreate)
      ((env.parseByteLength inst.spec.length).1 : Nat) inst.spec.encoding
      (env.parseByteLength inst.spec.length).2.1 inst.spec.fieldNames
      (literalValues inst.spec.data) 0 with
  | failed e => simp [hloop] at hcall
  | fault => simp [hloop] at hcall
  | done values1 =>
      simp only [hloop] at hcall
      by_cases hno : ownedByCR existing.ownerReferences = false
      · simp [hno] at hcall
      · have hown : ownedByCR existing.ownerReferences = true := by simpa using hno
        simp only [hown, Bool.true_eq_false, if_false] at hcall
        cases hmerge : mergeValues values1 (values1.map Prod.fst) existing.data with
        | none => simp [hmerge] at hcall
        | some data1 =>
            simp only [hmerge] at hcall
            have ht : t = ⟨data1, existing.annotations, existing.ownerReferences,
                existing.secretType⟩ := by
              rcases hu : c.update ⟨data1, existing.annotations, existing.ownerReferences,
                existing.secretType⟩ st with ⟨_ | uerr, st1⟩
              · simp only [hu] at hcall
                obtain ⟨_, more, hm, hmore⟩ := finishStatus_ret env c inst
                  ⟨data1, existing.annotations, existing.ownerReferences,
                    existing.secretType⟩
                  [Call.update ⟨data1, existing.annotations, existing.ownerReferences,
                    existing.secretType⟩] st1
                rw [hm] at hcall
                rcases List.mem_append.mp hcall with h | h
                · simpa using h
                · have := (hmore _ h).2
                  simp [Call.isUpdate] at this
              · simp only [hu] at hcall
                simpa using hcall
            subst ht
            intro k hne
            by_contra hcon
            push_neg at hcon
            obtain ⟨hc1, hc2⟩ := hcon
            have hnn : ¬ (k ∈ inst.spec.fieldNames
                ∧ needsValue existing inst.spec.forceRecreate k = true) := by
              rintro ⟨hk, hn⟩
              apply hc1 hk
              simpa [needsValue, hrec] using hn
            have hlook := ((fieldLoop_spec rnd _ _ _ _ _ _ _).2 values1 hloop).2 k hnn
            have hlit : alookup k (literalValues inst.spec.data) = none := by
              cases hl : alookup k (literalValues inst.spec.data) with
              | none => rfl
              | some v => exact absurd (literalValues_lookup _ _ _ hl) hc2
            have hkeys : k ∉ values1.map Prod.fst := by
              rw [← alookup_isSome_iff, hlook, hlit]
              simp
            apply hne
            have := mergeValues_get? _ _ _ _ hmerge k
            simpa [hkeys] using this

theorem foldl_ainsert_get (g : String → List Nat) (keys : List String)
    (init : List (String × List Nat)) (k : String)
    (h : k ∈ keys ∨ alookup k init = some (g k)) :
    alookup k (keys.foldl (fun values key => ainsert key (g key) values) init)
      = some (g k) := by
  induction keys generalizing init with
  | nil =>
      rcases h with h | h
      · simp at h
      · simpa using h
  | cons key rest ih =>
      simp only [List.foldl_cons]
      apply ih
      by_cases hk : k = key
      · right
        rw [alookup_ainsert, hk]
        simp
      · rcases h with h | h
        · left
          rcases List.mem_cons.mp h with h1 | h1
          · exact absurd h1 hk
          · exact h1
        · right
          rw [alookup_ainsert]
          simp [hk, h]

/-- A key of the literal data of the spec has the bytes of its literal string as
its literal value. -/
theorem literalValues_get (data : GoMap String) (k s : String)
    (h : data.get? k = some s) :
    alookup k (literalValues data) = some (stringBytes s) := by
  unfold literalValues
  have hk : k ∈ data.keys := by
    cases data with
    | none => simp [GoMap.get?] at h
    | some l =>
        simp only [GoMap.get?] at h
        simp only [GoMap.keys]
        rw [← alookup_isSome_iff, h]
        rfl
  have := foldl_ainsert_get (fun key => stringBytes ((data.get? key).getD "")) data.keys []
    k (Or.inl hk)
  simpa [h] using this

/-- When the loop over `fieldNames` completes, a field that needed a value holds
the value generated from one of the draws of the pass. -/
theorem fieldLoop_generated (rnd : RandSource) (needs : String → Bool) (n : Nat)
    (encoding : String) (isByteLength : Bool) (fields : List String)
    (values values1 : List (String × List Nat)) (draws : Nat)
    (hdone : fieldLoop rnd needs (n : Int) encoding isByteLength fields values draws
      = FieldLoop.done values1)
    (k : String) (hk : k ∈ fields) (hneed : needs k = true) :
    ∃ i v, draws ≤ i
      ∧ GenerateRandomString (rnd i) (n : Int) encoding isByteLength = Res.ok v
      ∧ alookup k values1 = some v := by
  induction fields generalizing values draws with
  | nil => simp at hk
  | cons field rest ih =>
      by_cases hf : needs field = true
      · rcases GenerateRandomString_cases (rnd draws) n encoding isByteLength with
          ⟨v, hv, _⟩ | ⟨msg, _, hv⟩
        · have hstep : fieldLoop rnd needs (n : Int) encoding isByteLength (field :: rest)
              values draws
              = fieldLoop rnd needs (n : Int) encoding isByteLength rest
                  (ainsert field v values) (draws + 1) := by
            simp only [fieldLoop, hf, if_true, hv]
          rw [hstep] at hdone
          by_cases hkr : k ∈ rest
          · obtain ⟨i, v1, hi, g1, g2⟩ := ih _ _ hdone hkr
            exact ⟨i, v1, by omega, g1, g2⟩
          · have hkf : k = field := by
              rcases List.mem_cons.mp hk with h | h
              · exact h
              · exact absurd h hkr
            subst hkf
            refine ⟨draws, v, le_refl _, hv, ?_⟩
            rw [((fieldLoop_spec rnd _ _ _ _ _ _ _).2 values1 hdone).2 k
              (fun hc => hkr hc.1), alookup_ainsert]
            simp
        · have hstep : fieldLoop rnd needs (n : Int) encoding isByteLength (field :: rest)
              values draws = FieldLoop.failed (Err.random msg) := by
            simp only [fieldLoop, hf, if_true, hv]
          rw [hstep] at hdone
          cases hdone
      · have hstep : fieldLoop rnd needs (n : Int) encoding isByteLength (field :: rest)
            values draws
            = fieldLoop rnd needs (n : Int) encoding isByteLength rest values draws := by
          simp only [fieldLoop, hf, Bool.false_eq_true, if_false]
        rw [hstep] at hdone
        have hkr : k ∈ rest := by
          rcases List.mem_cons.mp hk with h | h
          · subst h
            exact absurd hneed hf
          · exact h
        exact ih _ _ hdone hkr

/-- The data of the secret that `Reconcile` passes to update: the values of the
loop over `fieldNames` merged into the existing data. -/
theorem Reconcile_update_data {σ : Type} (env : RecEnv) (c : Client σ)
    (rnd : RandSource) (st : σ) (inst : StringCR) (existing t : Secret)
    (hinst : c.getString st = Except.ok inst) (hsec : c.getSecret st = Except.ok existing)
    (hcall : Call.update t ∈ (Reconcile env c rnd st).calls) :
    ∃ values1,
      fieldLoop rnd (needsValue existing inst.spec.forceRecreate)
          ((env.parseByteLength inst.spec.length).1 : Nat) inst.spec.encoding
          (env.parseByteLength inst.spec.length).2.1 inst.spec.fieldNames
          (literalValues inst.spec.data) 0 = FieldLoop.done values1
        ∧ ∀ k, t.data.get? k
            = if k ∈ values1.map Prod.fst then some ((alookup k values1).getD [])
              else existing.data.get? k := by
  unfold Reconcile at hcall
  simp only [hinst, hsec] at hcall
  cases hloop : fieldLoop rnd (needsValue existing inst.spec.forceRecreate)
      ((env.parseByteLength inst.spec.length).1 : Nat) inst.spec.encoding
      (env.parseByteLength inst.spec.length).2.1 inst.spec.fieldNames
      (literalValues inst.spec.data) 0 with
  | failed e => simp [hloop] at hcall
  | fault => simp [hloop] at hcall
  | done values1 =>
      simp only [hloop] at hcall
      by_cases hno : ownedByCR existing.ownerReferences = false
      · simp [hno] at hcall
      · have hown : ownedByCR existing.ownerReferences = true := by simpa using hno
        simp only [hown, Bool.true_eq_false, if_false] at hcall
        cases hmerge : mergeValues values1 (values1.map Prod.fst) existing.data with
        | none => simp [hmerge] at hcall
        | some data1 =>
            simp only [hmerge] at hcall
            have ht : t = ⟨data1, existing.annotations, existing.ownerReferences,
                existing.secretType⟩ := by
              rcases hu : c.update ⟨data1, existing.annotations, existing.ownerReferences,
                existing.secretType⟩ st with ⟨_ | uerr, st1⟩
              · simp only [hu] at hcall
                obtain ⟨_, more, hm, hmore⟩ := finishStatus_ret env c inst
                  ⟨data1, existing.annotations, existing.ownerReferences,
                    existing.secretType⟩
                  [Call.update ⟨data1, existing.annotations, existing.ownerReferences,
                    existing.secretType⟩] st1
                rw [hm] at hcall
                rcases List.mem_append.mp hcall with h | h
                · simpa using h
                · have := (hmore _ h).2
                  simp [Call.isUpdate] at this
              · simp only [hu] at hcall
                simpa using hcall
            subst ht
            exact ⟨values1, rfl, fun k => mergeValues_get? _ _ _ _ hmerge k⟩

/-- C5 (amended): for an existing secret and a spec with the recreate flag off, in
the secret that `Reconcile` passes to update every key whose current value is
non-empty and that is not a key of the literal data of the spec has its current
value; the only entries that change are declared fields whose current value is
empty or missing and keys of the literal data of the spec. A declared field
whose current value is empty or missing holds a value generated in this pass,
also when it is a key of the literal data; a key of the literal data that is
not such a field holds its literal value. The update is issued whenever the
secret is owned, its data map is not nil and the random source does not fail. -/
theorem Reconcile_update_preserves {σ : Type} (env : RecEnv) (c : Client σ)
    (rnd : RandSource) (st : σ) (inst : StringCR) (existing : Secret)
    (hinst : c.getString st = Except.ok inst) (hsec : c.getSecret st = Except.ok existing)
    (hrec : inst.spec.forceRecreate = false) :
    (∀ t, Call.update t ∈ (Reconcile env c rnd st).calls →
        (∀ k, dataAt existing.data k ≠ [] → k ∉ inst.spec.data.keys →
            t.data.get? k = existing.data.get? k)
          ∧ (∀ k, t.data.get? k ≠ existing.data.get? k →
              (k ∈ inst.spec.fieldNames ∧ dataAt existing.data k = [])
                ∨ k ∈ inst.spec.data.keys)
          ∧ (∀ k, k ∈ inst.spec.fieldNames → dataAt existing.data k = [] →
              ∃ i value,
                GenerateRandomString (rnd i) ((env.parseByteLength inst.spec.length).1 : Nat)
                    inst.spec.encoding (env.parseByteLength inst.spec.length).2.1
                  = Res.ok value
                  ∧ t.data.get? k = some value)
          ∧ (∀ k literal, inst.spec.data.get? k = some literal →
              ¬ (k ∈ inst.spec.fieldNames ∧ dataAt existing.data k = []) →
              t.data.get? k = some (stringBytes literal)))
      ∧ (ownedByCR existing.ownerReferences = true → existing.data ≠ none →
          (∀ i, ∃ src, rnd i = Draw.fill src) →
          ∃ t, (Reconcile env c rnd st).calls.head? = some (Call.update t)) := by
  refine ⟨?_, Reconcile_update_issued env c rnd st inst existing hinst hsec⟩
  intro t hcall
  have main := Reconcile_update_changes env c rnd st inst existing t hinst hsec hrec hcall
  obtain ⟨values1, hloop, hdata⟩ :=
    Reconcile_update_data env c rnd st inst existing t hinst hsec hcall
  refine ⟨?_, main, ?_, ?_⟩
  · intro k hne hk
    by_contra hcon
    rcases main k hcon with ⟨_, h⟩ | h
    · exact hne h
    · exact hk h
  · intro k hk hempty
    obtain ⟨i, value, _, hgen, hlook⟩ := fieldLoop_generated rnd _ _ _ _ _ _ values1 0 hloop
      k hk (by simp [needsValue, hempty])
    refine ⟨i, value, hgen, ?_⟩
    have hkeys : k ∈ values1.map Prod.fst := by
      rw [← alookup_isSome_iff, hlook]
      rfl
    rw [hdata k, if_pos hkeys, hlook]
    rfl
  · intro k literal hlit hnot
    have hnn : ¬ (k ∈ inst.spec.fieldNames
        ∧ needsValue existing inst.spec.forceRecreate k = true) := by
      intro hc
      apply hnot
      refine ⟨hc.1, ?_⟩
      simpa [needsValue, hrec] using hc.2
    have hlook := ((fieldLoop_spec rnd _ _ _ _ _ _ _).2 values1 hloop).2 k hnn
    rw [literalValues_get _ _ _ hlit] at hlook
    have hkeys : k ∈ values1.map Prod.fst := by
      rw [← alookup_isSome_iff, hlook]
      rfl
    rw [hdata k, if_pos hkeys, hlook]
    rfl

/-- C5, the claim as stated fails: a key of the literal data of the spec is
overwritten in the secret passed to update although its current value is
non-empty. -/
theorem Reconcile_update_literal_counterexample :
    (Reconcile exampleRecEnv memClient exampleRand
        ⟨some (exampleString ["pass"] (some [("user", "bob")]) false),
          some (aliceSecret "String")⟩).calls.head?
      = some (Call.update
          ⟨some [("user", stringBytes "bob"), ("pass", stringBytes "0")], none,
            [⟨"String", "example", "uid-string"⟩], "Opaque"⟩)
      ∧ dataAt (aliceSecret "String").data "user" = stringBytes "alice"
      ∧ stringBytes "alice" ≠ stringBytes "bob" := by
  decide

/-- C5, an instance of the amended claim: `{user: "alice", pass: ""}` with the
recreate flag off keeps `user`. -/
theorem Reconcile_update_preserves_witness :
    (exampleString ["user", "pass"] none false).spec.forceRecreate = false
      ∧ Call.update ⟨some [("user", stringBytes "alice"), ("pass", stringBytes "0")], none,
            [⟨"String", "example", "uid-string"⟩], "Opaque"⟩
          ∈ (Reconcile exampleRecEnv memClient exampleRand
              ⟨some (exampleString ["user", "pass"] none false),
                some (aliceSecret "String")⟩).calls
      ∧ (some (stringBytes "alice") : Option (List Nat))
          = (aliceSecret "String").data.get? "user" :=
  ⟨rfl, by decide,
    ((Reconcile_update_preserves exampleRecEnv memClient exampleRand
      ⟨some (exampleString ["user", "pass"] none false), some (aliceSecret "String")⟩
      (exampleString ["user", "pass"] none false) (aliceSecret "String")
      rfl rfl rfl).1
      ⟨some [("user", stringBytes "alice"), ("pass", stringBytes "0")], none,
        [⟨"String", "example", "uid-string"⟩], "Opaque"⟩ (by decide)).1 "user"
      (by decide) (by decide)⟩

/-- C4, an instance: a secret owned by another kind, empty `pass` and the recreate
flag on. -/
theorem Reconcile_not_owned_untouched_witness :
    (∀ ref ∈ (aliceSecret "Deployment").ownerReferences, ref.kind ≠ "String")
      ∧ (Reconcile exampleRecEnv memClient exampleRand
          ⟨some (exampleString ["user", "pass"] none true),
            some (aliceSecret "Deployment")⟩).calls = []
      ∧ (Reconcile exampleRecEnv memClient exampleRand
          ⟨some (exampleString ["user", "pass"] none true),
            some (aliceSecret "Deployment")⟩).ret = some (Result.zero, none) :=
  ⟨by decide,
    (Reconcile_not_owned_untouched exampleRecEnv memClient exampleRand
      ⟨some (exampleString ["user", "pass"] none true), some (aliceSecret "Deployment")⟩
      (exampleString ["user", "pass"] none true) (aliceSecret "Deployment") rfl rfl
      (by decide)).1,
    (Reconcile_not_owned_untouched exampleRecEnv memClient exampleRand
      ⟨some (exampleString ["user", "pass"] none true), some (aliceSecret "Deployment")⟩
      (exampleString ["user", "pass"] none true) (aliceSecret "Deployment") rfl rfl
      (by decide)).2.2.2 (fun _ => ⟨_, rfl⟩)⟩

/-- `Reconcile` makes no uniqueness check on `fieldNames`: for every spec it returns
no duplicate-key error, and when the secret is absent and the random source does
not fail it issues a create for a secret that has an entry for every declared
field name. -/
theorem Reconcile_no_duplicate_error {σ : Type} (env : RecEnv) (c : Client σ)
    (rnd : RandSource) (st : σ) :
    (∀ r e, (Reconcile env c rnd st).ret ≠ some (r, some (Err.duplicate e)))
      ∧ (∀ inst, c.getString st = Except.ok inst →
          c.getSecret st = Except.error ApiErr.notFound →
          (∀ i, ∃ src, rnd i = Draw.fill src) →
          ∃ desired, (Reconcile env c rnd st).calls.head? = some (Call.create desired)
            ∧ ∀ f ∈ inst.spec.fieldNames, (desired.data.get? f).isSome = true) := by
  constructor
  · intro r e
    unfold Reconcile
    have hfin := fun inst sec calls st1 => (finishStatus_ret env c inst sec calls st1).1 r e
    cases hinst : c.getString st with
    | error err =>
        dsimp only
        split_ifs <;> simp
    | ok inst =>
        dsimp only
        cases hsec : c.getSecret st with
        | error err =>
            dsimp only
            by_cases hnf : err = ApiErr.notFound
            · simp only [hnf, if_true]
              split
              · simp
              · simp
              · split
                · split_ifs
                  · exact hfin _ _ _ _
                  · simp
                · exact hfin _ _ _ _
            · simp [hnf]
        | ok existing =>
            dsimp only
            split
            · simp
            · simp
            · split_ifs
              · simp
              · split
                · simp
                · split
                  · simp
                  · exact hfin _ _ _ _
  · intro inst hinst hsec hrnd
    obtain ⟨values1, hdone⟩ := fieldLoop_done rnd hrnd (fun _ => true)
      (env.parseByteLength inst.spec.length).1 inst.spec.encoding
      (env.parseByteLength inst.spec.length).2.1 inst.spec.fieldNames
      (literalValues inst.spec.data) 0
    have hvals := ((fieldLoop_spec rnd _ _ _ _ _ _ _).2 values1 hdone).1
    refine ⟨NewSecret inst values1 inst.spec.secretType, ?_, ?_⟩
    · unfold Reconcile
      simp only [hinst, hsec, hdone, if_true]
      rcases hcr : c.create (NewSecret inst values1 inst.spec.secretType) st with
        ⟨_ | cerr, st1⟩
      · obtain ⟨_, more, hm, _⟩ := finishStatus_ret env c inst
          (NewSecret inst values1 inst.spec.secretType)
          [Call.create (NewSecret inst values1 inst.spec.secretType)] st1
        simp only [hm]
        simp
      · simp only
        split_ifs
        · obtain ⟨_, more, hm, _⟩ := finishStatus_ret env c inst
            (NewSecret inst values1 inst.spec.secretType)
            [Call.create (NewSecret inst values1 inst.spec.secretType)] st1
          simp only [hm]
          simp
        · simp
    · intro f hf
      obtain ⟨v, hv, _⟩ := hvals f hf rfl
      simp [NewSecret, GoMap.get?, hv]

/-- C8: at `fieldNames = ["a", "a"]` with the secret absent, `Reconcile` does not
fail with a duplicate-key error: it returns `Result{}` with a nil error and its
first write creates the secret, with the value of the last draw under `a`. The
claim asks for a duplicate-key error and no create, as `generateData` does for
the auto-generate list. -/
theorem Reconcile_duplicate_fields_created :
    HasDuplicate (exampleString ["a", "a"] none false).spec.fieldNames
      ∧ (Reconcile exampleRecEnv memClient exampleRand
          ⟨some (exampleString ["a", "a"] none false), none⟩).ret = some (Result.zero, none)
      ∧ (Reconcile exampleRecEnv memClient exampleRand
          ⟨some (exampleString ["a", "a"] none false), none⟩).calls.head?
        = some (Call.create ⟨some [("a", stringBytes "1")], none,
            [⟨"String", "example", "uid-string"⟩], "Opaque"⟩) :=
  ⟨⟨⟨0, by decide⟩, ⟨1, by decide⟩, by decide, by decide⟩, by decide, by decide⟩

/-! ## Two passes against the in-memory store -/

theorem finishStatus_mem (env : RecEnv) (inst : StringCR) (sec : Secret) (calls : List Call)
    (sec0 : Option Secret) :
    ∃ c1, (finishStatus env memClient inst sec calls ⟨some inst, sec0⟩).state = ⟨some c1, sec0⟩
      ∧ c1.spec = inst.spec := by
  unfold finishStatus
  cases env.getReference sec with
  | error msg => exact ⟨inst, rfl, rfl⟩
  | ok stringRef => exact ⟨_, rfl, rfl⟩

theorem dataAt_of_get? (d : GoMap (List Nat)) (k : String) (v : List Nat)
    (h : d.get? k = some v) : dataAt d k = v := by
  simp [dataAt, h]

/-- On a store whose secret already holds the literal data of the spec and in
which an empty declared field can only be generated empty again, a pass leaves
the secret as it is. -/
theorem Reconcile_settled (env : RecEnv) (rnd : RandSource)
    (hrnd : ∀ i, ∃ src, rnd i = Draw.fill src) (c : StringCR) (s : Secret)
    (hrec : c.spec.forceRecreate = false)
    (hlit : ∀ k v, alookup k (literalValues c.spec.data) = some v → s.data.get? k = some v)
    (hfld : ∀ f ∈ c.spec.fieldNames, dataAt s.data f = [] →
      s.data.get? f = some [] ∧ (env.parseByteLength c.spec.length).1 = 0) :
    (pass env rnd ⟨some c, some s⟩).secret = some s := by
  obtain ⟨values2, hdone⟩ := fieldLoop_done rnd hrnd (needsValue s c.spec.forceRecreate)
    (env.parseByteLength c.spec.length).1 c.spec.encoding
    (env.parseByteLength c.spec.length).2.1 c.spec.fieldNames (literalValues c.spec.data) 0
  obtain ⟨g1, g2⟩ := (fieldLoop_spec rnd _ _ _ _ _ _ _).2 values2 hdone
  have hall : ∀ k v, alookup k values2 = some v → s.data.get? k = some v := by
    intro k v hkv
    by_cases hk : k ∈ c.spec.fieldNames ∧ needsValue s c.spec.forceRecreate k = true
    · obtain ⟨v1, hv1, hv1e⟩ := g1 k hk.1 hk.2
      have hempty : dataAt s.data k = [] := by simpa [needsValue, hrec] using hk.2
      obtain ⟨h1, h2⟩ := hfld k hk.1 hempty
      rw [hkv] at hv1
      cases hv1
      rw [h1, hv1e.mpr h2]
    · rw [g2 k hk] at hkv
      exact hlit k v hkv
  have hmerge : mergeValues values2 (values2.map Prod.fst) s.data = some s.data := by
    apply mergeValues_eq_self
    intro k hk
    rw [← alookup_isSome_iff] at hk
    obtain ⟨v, hv⟩ := Option.isSome_iff_exists.mp hk
    rw [hall k v hv, hv]
    rfl
  unfold pass Reconcile
  simp only [memClient, hdone, hmerge]
  split_ifs
  · rfl
  · obtain ⟨c1, h1, _⟩ := finishStatus_mem env c s [Call.update s] (some s)
    exact congrArg Store.secret h1

/-- Which keys hold a value after the loop over `fieldNames` does not depend on the
random source. -/
theorem fieldLoop_keys (rnd1 rnd2 : RandSource) (needs : String → Bool) (n : Nat)
    (encoding : String) (isByteLength : Bool) (fields : List String)
    (values values1 values2 : List (String × List Nat))
    (h1 : fieldLoop rnd1 needs (n : Int) encoding isByteLength fields values 0
      = FieldLoop.done values1)
    (h2 : fieldLoop rnd2 needs (n : Int) encoding isByteLength fields values 0
      = FieldLoop.done values2) (k : String) :
    (alookup k values1).isSome = (alookup k values2).isSome := by
  obtain ⟨a1, a2⟩ := (fieldLoop_spec rnd1 _ _ _ _ _ _ _).2 values1 h1
  obtain ⟨b1, b2⟩ := (fieldLoop_spec rnd2 _ _ _ _ _ _ _).2 values2 h2
  by_cases hk : k ∈ fields ∧ needs k = true
  · obtain ⟨v1, hv1, _⟩ := a1 k hk.1 hk.2
    obtain ⟨v2, hv2, _⟩ := b1 k hk.1 hk.2
    rw [hv1, hv2]
    rfl
  · rw [a2 k hk, b2 k hk]

/-- C6 (amended): for every store state whose spec has the recreate flag off and
declares no field that is also a key of its literal data, two passes of
`Reconcile` in succession, with the spec unchanged, no other writer and a random
source that does not fail but may supply different bytes on each pass, leave the
stored secret after the second pass identical to the secret after the first
pass, its data included. -/
theorem Reconcile_idempotent (env : RecEnv) (rnd1 rnd2 : RandSource) (st : Store)
    (hrnd1 : ∀ i, ∃ src, rnd1 i = Draw.fill src)
    (hrnd2 : ∀ i, ∃ src, rnd2 i = Draw.fill src)
    (hspec : ∀ cr, st.cr = some cr →
      cr.spec.forceRecreate = false ∧ ∀ f ∈ cr.spec.fieldNames, f ∉ cr.spec.data.keys) :
    (pass env rnd2 (pass env rnd1 st)).secret = (pass env rnd1 st).secret := by
  obtain ⟨cr, sec⟩ := st
  cases cr with
  | none =>
      have h : ∀ rnd, pass env rnd ⟨none, sec⟩ = ⟨none, sec⟩ := by
        intro rnd
        simp [pass, Reconcile, memClient]
      rw [h rnd1, h rnd2]
  | some c =>
      obtain ⟨hrec, hdisj⟩ := hspec c rfl
      have hlitnone : ∀ f ∈ c.spec.fieldNames, alookup f (literalValues c.spec.data) = none := by
        intro f hf
        cases hl : alookup f (literalValues c.spec.data) with
        | none => rfl
        | some v => exact absurd (literalValues_lookup _ _ _ hl) (hdisj f hf)
      cases sec with
      | none =>
          obtain ⟨values1, hdone⟩ := fieldLoop_done rnd1 hrnd1 (fun _ => true)
            (env.parseByteLength c.spec.length).1 c.spec.encoding
            (env.parseByteLength c.spec.length).2.1 c.spec.fieldNames
            (literalValues c.spec.data) 0
          obtain ⟨g1, g2⟩ := (fieldLoop_spec rnd1 _ _ _ _ _ _ _).2 values1 hdone
          obtain ⟨c1, hst, hc1⟩ := finishStatus_mem env c
            (NewSecret c values1 c.spec.secretType)
            [Call.create (NewSecret c values1 c.spec.secretType)]
            (some (NewSecret c values1 c.spec.secretType))
          have hpass : pass env rnd1 ⟨some c, none⟩
              = ⟨some c1, some (NewSecret c values1 c.spec.secretType)⟩ := by
            unfold pass Reconcile
            simp only [memClient, hdone, if_true]
            exact hst
          rw [hpass]
          apply Reconcile_settled env rnd2 hrnd2 c1
          · rw [hc1]; exact hrec
          · intro k v hkv
            rw [hc1] at hkv
            have hknot : ¬ (k ∈ c.spec.fieldNames ∧ (fun _ : String => true) k = true) := by
              rintro ⟨hk, _⟩
              rw [hlitnone k hk] at hkv
              cases hkv
            have := g2 k hknot
            simp only [NewSecret, GoMap.get?]
            rw [this]
            exact hkv
          · intro f hf hempty
            rw [hc1] at hf ⊢
            obtain ⟨v, hv, hve⟩ := g1 f hf rfl
            have hget : (NewSecret c values1 c.spec.secretType).data.get? f = some v := by
              simp only [NewSecret, GoMap.get?]
              exact hv
            rw [dataAt_of_get? _ _ _ hget] at hempty
            subst hempty
            exact ⟨hget, hve.mp rfl⟩
      | some s =>
          by_cases hno : ownedByCR s.ownerReferences = false
          · have h : ∀ rnd, pass env rnd ⟨some c, some s⟩ = ⟨some c, some s⟩ := by
              intro rnd
              exact (Reconcile_skip env memClient rnd ⟨some c, some s⟩ c s rfl rfl hno).2.1
            rw [h rnd1, h rnd2]
          · have hown : ownedByCR s.ownerReferences = true := by simpa using hno
            obtain ⟨values1, hdone⟩ := fieldLoop_done rnd1 hrnd1
              (needsValue s c.spec.forceRecreate)
              (env.parseByteLength c.spec.length).1 c.spec.encoding
              (env.parseByteLength c.spec.length).2.1 c.spec.fieldNames
              (literalValues c.spec.data) 0
            obtain ⟨g1, g2⟩ := (fieldLoop_spec rnd1 _ _ _ _ _ _ _).2 values1 hdone
            cases hmerge : mergeValues values1 (values1.map Prod.fst) s.data with
            | none =>
                obtain ⟨values2, hdone2⟩ := fieldLoop_done rnd2 hrnd2
                  (needsValue s c.spec.forceRecreate)
                  (env.parseByteLength c.spec.length).1 c.spec.encoding
                  (env.parseByteLength c.spec.length).2.1 c.spec.fieldNames
                  (literalValues c.spec.data) 0
                have hmerge2 : mergeValues values2 (values2.map Prod.fst) s.data = none := by
                  rw [mergeValues_eq_none] at hmerge ⊢
                  refine ⟨hmerge.1, ?_⟩
                  obtain ⟨k, hk⟩ := List.exists_mem_of_ne_nil _ hmerge.2
                  rw [← alookup_isSome_iff,
                    fieldLoop_keys rnd1 rnd2 _ _ _ _ _ _ _ _ hdone hdone2 k,
                    alookup_isSome_iff] at hk
                  exact List.ne_nil_of_mem hk
                have hp1 : pass env rnd1 ⟨some c, some s⟩ = ⟨some c, some s⟩ := by
                  unfold pass Reconcile
                  simp only [memClient, hdone, hown, hmerge, Bool.true_eq_false, if_false]
                have hp2 : pass env rnd2 ⟨some c, some s⟩ = ⟨some c, some s⟩ := by
                  unfold pass Reconcile
                  simp only [memClient, hdone2, hown, hmerge2, Bool.true_eq_false, if_false]
                rw [hp1, hp2]
            | some data1 =>
                have hget := mergeValues_get? _ _ _ _ hmerge
                obtain ⟨c1, hst, hc1⟩ := finishStatus_mem env c
                  ⟨data1, s.annotations, s.ownerReferences, s.secretType⟩
                  [Call.update ⟨data1, s.annotations, s.ownerReferences, s.secretType⟩]
                  (some ⟨data1, s.annotations, s.ownerReferences, s.secretType⟩)
                have hpass : pass env rnd1 ⟨some c, some s⟩
                    = ⟨some c1, some ⟨data1, s.annotations, s.ownerReferences,
                        s.secretType⟩⟩ := by
                  unfold pass Reconcile
                  simp only [memClient, hdone, hown, hmerge, Bool.true_eq_false, if_false]
                  exact hst
                rw [hpass]
                apply Reconcile_settled env rnd2 hrnd2 c1
                · rw [hc1]; exact hrec
                · intro k v hkv
                  rw [hc1] at hkv
                  have hknot : ¬ (k ∈ c.spec.fieldNames
                      ∧ needsValue s c.spec.forceRecreate k = true) := by
                    rintro ⟨hk, _⟩
                    rw [hlitnone k hk] at hkv
                    cases hkv
                  have hv1 : alookup k values1 = some v := by rw [g2 k hknot]; exact hkv
                  have hmem : k ∈ values1.map Prod.fst := by
                    rw [← alookup_isSome_iff, hv1]; rfl
                  simp only [hget k, hmem, if_true, hv1, Option.getD_some]
                · intro f hf hempty
                  rw [hc1] at hf ⊢
                  by_cases hneed : needsValue s c.spec.forceRecreate f = true
                  · obtain ⟨v, hv, hve⟩ := g1 f hf hneed
                    have hmem : f ∈ values1.map Prod.fst := by
                      rw [← alookup_isSome_iff, hv]; rfl
                    have hgf : data1.get? f = some v := by
                      simp only [hget f, hmem, if_true, hv, Option.getD_some]
                    simp only at hempty
                    rw [dataAt_of_get? _ _ _ hgf] at hempty
                    subst hempty
                    exact ⟨hgf, hve.mp rfl⟩
                  · exfalso
                    have hv : alookup f values1 = none := by
                      rw [g2 f (fun hc => hneed hc.2)]
                      exact hlitnone f hf
                    have hmem : f ∉ values1.map Prod.fst := by
                      rw [← alookup_isSome_iff, hv]; simp
                    have hgf : data1.get? f = s.data.get? f := by
                      simp only [hget f, hmem, if_false]
                    simp only [dataAt, hgf] at hempty
                    apply hneed
                    simp [needsValue, dataAt, hempty]

/-- C6, the claim as stated fails: with the recreate flag on, the second pass
generates the declared field of an owned secret again, from other bytes. -/
theorem Reconcile_recreate_counterexample :
    (exampleString ["pass"] none true).spec.forceRecreate = true
      ∧ ((pass exampleRecEnv exampleRand
          ⟨some (exampleString ["pass"] none true), some (aliceSecret "String")⟩).secret.map
            Secret.data)
        = some (some [("user", stringBytes "alice"), ("pass", stringBytes "0")])
      ∧ ((pass exampleRecEnv otherRand (pass exampleRecEnv exampleRand
          ⟨some (exampleString ["pass"] none true), some (aliceSecret "String")⟩)).secret.map
            Secret.data)
        = some (some [("user", stringBytes "alice"), ("pass", stringBytes "c")])
      ∧ stringBytes "0" ≠ stringBytes "c" := by
  decide

/-- C6, an instance of the amended claim: two passes from an absent secret with
fields `user` and `pass`. -/
theorem Reconcile_idempotent_witness :
    (exampleString ["user", "pass"] none false).spec.forceRecreate = false
      ∧ (pass exampleRecEnv otherRand (pass exampleRecEnv exampleRand
          ⟨some (exampleString ["user", "pass"] none false), none⟩)).secret
        = (pass exampleRecEnv exampleRand
          ⟨some (exampleString ["user", "pass"] none false), none⟩).secret :=
  ⟨rfl,
    Reconcile_idempotent exampleRecEnv exampleRand otherRand
      ⟨some (exampleString ["user", "pass"] none false), none⟩
      (fun _ => ⟨_, rfl⟩) (fun _ => ⟨_, rfl⟩)
      (fun cr h => by
        cases h
        exact ⟨rfl, by decide⟩)⟩

/-! ## Failures in `Reconcile` -/

theorem GenerateRandomString_fail (msg : String) (n : Nat) (encoding : String)
    (lenBytes : Bool) :
    GenerateRandomString (Draw.fail msg) (n : Int) encoding lenBytes
      = Res.err (Err.random msg) := by
  have hn : ¬ ((n : Int) < 0) := by omega
  unfold GenerateRandomString generateValue
  by_cases hraw : encoding = "raw"
  · simp [hraw, generateRandomStringRaw, randRead, hn]
  · simp [hraw, generateRandomString, randRead, hn]

/-- When the draw for one of the fields to generate fails, the loop over
`fieldNames` ends in failure. -/
theorem fieldLoop_failed (rnd : RandSource) (needs : String → Bool) (n : Nat)
    (encoding : String) (isByteLength : Bool) (fields : List String)
    (values : List (String × List Nat)) (draws : Nat)
    (h : ∃ i, i < (fields.filter needs).length ∧ ∃ msg, rnd (draws + i) = Draw.fail msg) :
    ∃ e, fieldLoop rnd needs (n : Int) encoding isByteLength fields values draws
      = FieldLoop.failed e := by
  induction fields generalizing values draws with
  | nil =>
      obtain ⟨i, hi, _⟩ := h
      simp at hi
  | cons field rest ih =>
      obtain ⟨i, hi, msg, hmsg⟩ := h
      by_cases hneed : needs field = true
      · rcases GenerateRandomString_cases (rnd draws) n encoding isByteLength with
          ⟨v, hv, _⟩ | ⟨msg1, _, hv⟩
        · have hstep : fieldLoop rnd needs (n : Int) encoding isByteLength (field :: rest)
              values draws
              = fieldLoop rnd needs (n : Int) encoding isByteLength rest
                  (ainsert field v values) (draws + 1) := by
            simp only [fieldLoop, hneed, if_true, hv]
          rw [hstep]
          apply ih
          cases i with
          | zero =>
              exfalso
              rw [Nat.add_zero] at hmsg
              rw [hmsg, GenerateRandomString_fail] at hv
              cases hv
          | succ j =>
              refine ⟨j, ?_, msg, ?_⟩
              · simpa [List.filter_cons, hneed] using hi
              · have : draws + 1 + j = draws + (j + 1) := by omega
                rw [this]
                exact hmsg
        · exact ⟨Err.random msg1, by simp only [fieldLoop, hneed, if_true, hv]⟩
      · have hstep : fieldLoop rnd needs (n : Int) encoding isByteLength (field :: rest)
            values draws
            = fieldLoop rnd needs (n : Int) encoding isByteLength rest values draws := by
          simp only [fieldLoop, hneed, Bool.false_eq_true, if_false]
        rw [hstep]
        apply ih
        refine ⟨i, ?_, msg, hmsg⟩
        simpa [List.filter_cons, hneed] using hi

/-- C14: when the call of `rand.Read` for one of the fields that `Reconcile`
generates fails, on the create path (every declared field is generated) as on
the update path (the fields that are empty or recreated), `Reconcile` issues no
create, no update and no status update, leaves the store as it is, and returns a
result that asks for a new attempt after 30 seconds. -/
theorem Reconcile_generation_failure_atomic {σ : Type} (env : RecEnv) (c : Client σ)
    (rnd : RandSource) (st : σ) (inst : StringCR)
    (hinst : c.getString st = Except.ok inst) :
    (c.getSecret st = Except.error ApiErr.notFound →
        (∃ i, i < inst.spec.fieldNames.length ∧ ∃ msg, rnd i = Draw.fail msg) →
        (∃ e, (Reconcile env c rnd st).ret = some (⟨false, 30⟩, e))
          ∧ (Reconcile env c rnd st).calls = []
          ∧ (Reconcile env c rnd st).state = st)
      ∧ (∀ existing, c.getSecret st = Except.ok existing →
          (∃ i, i < (inst.spec.fieldNames.filter
              (needsValue existing inst.spec.forceRecreate)).length
            ∧ ∃ msg, rnd i = Draw.fail msg) →
          (∃ e, (Reconcile env c rnd st).ret = some (⟨false, 30⟩, e))
            ∧ (Reconcile env c rnd st).calls = []
            ∧ (Reconcile env c rnd st).state = st) := by
  constructor
  · intro hsec hfail
    obtain ⟨e, he⟩ := fieldLoop_failed rnd (fun _ => true)
      (env.parseByteLength inst.spec.length).1 inst.spec.encoding
      (env.parseByteLength inst.spec.length).2.1 inst.spec.fieldNames
      (literalValues inst.spec.data) 0 (by simpa using hfail)
    unfold Reconcile
    simp only [hinst, hsec, he, if_true]
    simp
  · intro existing hsec hfail
    obtain ⟨e, he⟩ := fieldLoop_failed rnd (needsValue existing inst.spec.forceRecreate)
      (env.parseByteLength inst.spec.length).1 inst.spec.encoding
      (env.parseByteLength inst.spec.length).2.1 inst.spec.fieldNames
      (literalValues inst.spec.data) 0 (by simpa using hfail)
    unfold Reconcile
    simp only [hinst, hsec, he]
    simp

/-- C14, an instance: the random source fails for the empty field `pass` of an
owned secret. -/
theorem Reconcile_generation_failure_atomic_witness :
    (∃ i, i < ((exampleString ["user", "pass"] none false).spec.fieldNames.filter
          (needsValue (aliceSecret "String") false)).length
        ∧ ∃ msg, failingRand i = Draw.fail msg)
      ∧ (Reconcile exampleRecEnv memClient failingRand
          ⟨some (exampleString ["user", "pass"] none false),
            some (aliceSecret "String")⟩).calls = [] :=
  ⟨⟨0, by decide, _, rfl⟩,
    ((Reconcile_generation_failure_atomic exampleRecEnv memClient failingRand
      ⟨some (exampleString ["user", "pass"] none false), some (aliceSecret "String")⟩
      (exampleString ["user", "pass"] none false) rfl).2 (aliceSecret "String") rfl
      ⟨0, by decide, _, rfl⟩).2.1⟩

/-- C15: when the random source fails, the error that `Reconcile` returns is the
outer `err`, not `randErr`: on the update path (empty field `pass` of an owned
secret) it is nil, and on the create path (secret absent) it is the NotFound
error of the fetch. In neither case is it the random-source error. -/
theorem Reconcile_generation_failure_error :
    (Reconcile exampleRecEnv memClient failingRand
        ⟨some (exampleString ["user", "pass"] none false),
          some (aliceSecret "String")⟩).ret = some (⟨false, 30⟩, none)
      ∧ (Reconcile exampleRecEnv memClient failingRand
          ⟨some (exampleString ["user", "pass"] none false), none⟩).ret
        = some (⟨false, 30⟩, some (Err.api ApiErr.notFound))
      ∧ GenerateRandomString (failingRand 0) 1 "hex" false
        = Res.err (Err.random "entropy source unavailable") := by
  decide

/-- C12: when the secret is absent at fetch time and `Create` answers
AlreadyExists, `Reconcile` does not return that error: it goes on to the status
update, which marks the resource completed and attaches a reference to the
secret, and returns `Result{}` with a nil error. -/
theorem Reconcile_already_exists_swallowed :
    racingClient.getSecret ⟨some (exampleString ["a"] none false), none⟩
        = Except.error ApiErr.notFound
      ∧ (racingClient.create ⟨some [("a", stringBytes "0")], none,
            [⟨"String", "example", "uid-string"⟩], "Opaque"⟩
          ⟨some (exampleString ["a"] none false), none⟩).1 = some ApiErr.alreadyExists
      ∧ (Reconcile exampleRecEnv racingClient exampleRand
          ⟨some (exampleString ["a"] none false), none⟩).ret = some (Result.zero, none)
      ∧ (Reconcile exampleRecEnv racingClient exampleRand
          ⟨some (exampleString ["a"] none false), none⟩).calls
        = [Call.create ⟨some [("a", stringBytes "0")], none,
              [⟨"String", "example", "uid-string"⟩], "Opaque"⟩,
            Call.statusUpdate ⟨"example", "uid-string",
              (exampleString ["a"] none false).spec,
              ⟨ReconcilerState.completed, some ⟨"Secret", "example", "uid-secret"⟩⟩⟩] :=
  ⟨rfl, by decide, by decide, by decide⟩

/-- C13: when the length string of the spec fails to parse, `Reconcile` ignores
the error: with the secret absent it generates the declared field (with the
length 0 that the failed parse yields), creates the secret, updates the status
and returns `Result{}` with a nil error. -/
theorem Reconcile_invalid_length_ignored :
    (strictLengthEnv.parseByteLength badLengthString.spec.length).2.2
        = some (Err.resolve "invalid length")
      ∧ (Reconcile strictLengthEnv memClient exampleRand ⟨some badLengthString, none⟩).ret
        = some (Result.zero, none)
      ∧ (Reconcile strictLengthEnv memClient exampleRand ⟨some badLengthString, none⟩).calls
        = [Call.create ⟨some [("a", [])], none,
              [⟨"String", "example", "uid-string"⟩], "Opaque"⟩,
            Call.statusUpdate ⟨"example", "uid-string", badLengthString.spec,
              ⟨ReconcilerState.completed, some ⟨"Secret", "example", "uid-secret"⟩⟩⟩] := by
  decide

/-- C18: for an owned secret whose data map is nil and a spec that declares the
field `a`, the merge of `Reconcile` writes to the nil map: the pass ends in a
runtime fault and no update is issued. -/
theorem Reconcile_merge_nil_data_faults :
    ownedByCR nilDataSecret.ownerReferences = true
      ∧ nilDataSecret.data = none
      ∧ (Reconcile exampleRecEnv memClient exampleRand
          ⟨some (exampleString ["a"] none false), some nilDataSecret⟩).ret = none
      ∧ (Reconcile exampleRecEnv memClient exampleRand
          ⟨some (exampleString ["a"] none false), some nilDataSecret⟩).calls = [] := by
  decide

/-! ## The marker, parse errors and the empty key list -/

/-- Reading the directive leaves every annotation other than the directive alone. -/
theorem regenSelect_get? (env : GenEnv) (genKeys : List String) (annotations : GoMap String)
    (k : String) (hk : k ≠ env.annotationSecretRegenerate) :
    (regenSelect env genKeys annotations).2.get? k = annotations.get? k := by
  unfold regenSelect
  split_ifs
  · rfl
  · split
    · simp [GoMap.get?_delete, hk]
    · rfl

/-- The outcome of `generateData` when the key list is duplicate free and the
length or the encoding does not resolve. -/
theorem generateData_resolve_error_out (env : GenEnv) (rnd : RandSource) (inst : Secret)
    (hk : (genKeysOf env inst).Nodup) :
    (∀ err, env.secretLengthFromAnnotation (selectionOf env inst).2 = Except.error err →
        generateData env rnd inst
          = ⟨⟨inst.data, (selectionOf env inst).2, inst.ownerReferences, inst.secretType⟩,
              some (Result.zero, some err), []⟩)
      ∧ (∀ p err, env.secretLengthFromAnnotation (selectionOf env inst).2 = Except.ok p →
          env.secretEncodingFromAnnotation (selectionOf env inst).2 = Except.error err →
          generateData env rnd inst
            = ⟨⟨inst.data, (selectionOf env inst).2, inst.ownerReferences, inst.secretType⟩,
                some (Result.zero, some err), []⟩) := by
  have hu := (ensureUniqueness_eq_none _).mpr hk
  unfold genKeysOf at hu
  constructor
  · intro err hlen
    unfold selectionOf genKeysOf at hlen ⊢
    unfold generateData
    simp only [hu, hlen]
  · intro p err hlen henc
    obtain ⟨length, byteLen⟩ := p
    unfold selectionOf genKeysOf at hlen henc ⊢
    unfold generateData
    simp only [hu, hlen, henc]

/-- The outcome of `generateData` when the loop over the keys completes. -/
theorem generateData_done (env : GenEnv) (rnd : RandSource) (inst : Secret)
    (hk : (genKeysOf env inst).Nodup) (length : Nat) (byteLen : Bool) (encoding : String)
    (hlen : env.secretLengthFromAnnotation (selectionOf env inst).2 = Except.ok (length, byteLen))
    (henc : env.secretEncodingFromAnnotation (selectionOf env inst).2 = Except.ok encoding)
    (st1 : GenState)
    (hloop : genLoop rnd (selectionOf env inst).1 (length : Int) byteLen encoding
      (genKeysOf env inst) ⟨inst.data, 0, []⟩ = GenLoop.done st1) :
    generateData env rnd inst
      = if st1.generatedCount = (genKeysOf env inst).length then
          match (selectionOf env inst).2.set env.annotationSecretSecure "yes" with
          | none =>
              ⟨⟨st1.data, (selectionOf env inst).2, inst.ownerReferences, inst.secretType⟩,
                none, st1.fields⟩
          | some a =>
              ⟨⟨st1.data, a, inst.ownerReferences, inst.secretType⟩,
                some (Result.zero, none), st1.fields⟩
        else
          ⟨⟨st1.data, (selectionOf env inst).2, inst.ownerReferences, inst.secretType⟩,
            some (Result.zero, none), st1.fields⟩ := by
  have hu := (ensureUniqueness_eq_none _).mpr hk
  unfold genKeysOf at hu
  unfold selectionOf genKeysOf at hlen henc hloop ⊢
  unfold generateData
  simp only [hu, hlen, henc, hloop]

/-- A pass that returns without error has resolved the length and the encoding and
completed the loop over the keys. -/
theorem generateData_ok_done (env : GenEnv) (rnd : RandSource) (inst : Secret) (r : Result)
    (hk : (genKeysOf env inst).Nodup)
    (hok : (generateData env rnd inst).ret = some (r, none)) :
    ∃ length byteLen encoding st1,
      env.secretLengthFromAnnotation (selectionOf env inst).2 = Except.ok (length, byteLen)
        ∧ env.secretEncodingFromAnnotation (selectionOf env inst).2 = Except.ok encoding
        ∧ genLoop rnd (selectionOf env inst).1 (length : Int) byteLen encoding
            (genKeysOf env inst) ⟨inst.data, 0, []⟩ = GenLoop.done st1 := by
  obtain ⟨h1, h2⟩ := generateData_resolve_error_out env rnd inst hk
  cases hlen : env.secretLengthFromAnnotation (selectionOf env inst).2 with
  | error err =>
      rw [h1 err hlen] at hok
      simp at hok
  | ok p =>
      obtain ⟨length, byteLen⟩ := p
      cases henc : env.secretEncodingFromAnnotation (selectionOf env inst).2 with
      | error err =>
          rw [h2 _ err hlen henc] at hok
          simp at hok
      | ok encoding =>
          obtain ⟨_, _, hdone, _⟩ :=
            generateData_unfold env rnd inst hk length byteLen encoding hlen henc
          obtain ⟨st1, hst1⟩ := hdone r hok
          exact ⟨length, byteLen, encoding, st1, rfl, rfl, hst1⟩

/-- C11: for a secret with pairwise distinct auto-generate keys on which
`generateData` returns without error, the pass assigns `"yes"` to the marker
annotation when every key of the auto-generate list was generated in this pass,
and otherwise makes no assignment to it: the marker is then as it was before the
pass (absent stays absent, present keeps its value). The marker and the
directive are distinct annotations. -/
theorem generateData_marker (env : GenEnv) (rnd : RandSource) (inst : Secret) (r : Result)
    (hnames : env.annotationSecretSecure ≠ env.annotationSecretRegenerate)
    (hk : (genKeysOf env inst).Nodup)
    (hok : (generateData env rnd inst).ret = some (r, none)) :
    ((generateData env rnd inst).written = genKeysOf env inst →
        (selectionOf env inst).2.set env.annotationSecretSecure "yes"
            = some (generateData env rnd inst).secret.annotations
          ∧ (generateData env rnd inst).secret.annotations.get? env.annotationSecretSecure
            = some "yes")
      ∧ ((generateData env rnd inst).written ≠ genKeysOf env inst →
          (generateData env rnd inst).secret.annotations = (selectionOf env inst).2
            ∧ (generateData env rnd inst).secret.annotations.get? env.annotationSecretSecure
              = inst.annotations.get? env.annotationSecretSecure) := by
  obtain ⟨length, byteLen, encoding, st1, hlen, henc, hloop⟩ :=
    generateData_ok_done env rnd inst r hk hok
  obtain ⟨w, h1, _, h3, _, _⟩ := genLoop_spec rnd (selectionOf env inst).1 (length : Int)
    byteLen encoding (genKeysOf env inst) hk ⟨inst.data, 0, []⟩
  obtain ⟨hw, hcount⟩ := h3 st1 hloop
  rw [hloop] at h1
  simp only [GenLoop.state, List.nil_append, Nat.zero_add] at h1 hcount
  have hall : st1.generatedCount = (genKeysOf env inst).length
      ↔ st1.fields = genKeysOf env inst := by
    rw [hcount, h1, hw, List.filter_length_eq_length, List.filter_eq_self]
  have hgd := generateData_done env rnd inst hk length byteLen encoding hlen henc st1 hloop
  rw [hgd] at hok ⊢
  by_cases hc : st1.generatedCount = (genKeysOf env inst).length
  · simp only [hc, if_true] at hok ⊢
    cases hset : (selectionOf env inst).2.set env.annotationSecretSecure "yes" with
    | none => simp [hset] at hok
    | some a =>
        simp only [hset]
        refine ⟨fun _ => ⟨trivial, ?_⟩, fun hne => absurd (hall.mp hc) hne⟩
        rw [GoMap.get?_set hset]
        simp
  · simp only [hc, if_false]
    refine ⟨fun heq => absurd (hall.mpr heq) hc, fun _ => ⟨trivial, ?_⟩⟩
    exact regenSelect_get? env _ _ _ hnames

/-- C11, an instance: directive `a` on `a,b,c` generates `a` and `b` only, and the
marker stays absent. -/
theorem generateData_marker_witness :
    exampleEnv.annotationSecretSecure ≠ exampleEnv.annotationSecretRegenerate
      ∧ (genKeysOf exampleEnv directiveSecret).Nodup
      ∧ (generateData exampleEnv exampleRand directiveSecret).ret = some (Result.zero, none)
      ∧ (generateData exampleEnv exampleRand directiveSecret).written
          ≠ genKeysOf exampleEnv directiveSecret
      ∧ (generateData exampleEnv exampleRand directiveSecret).secret.annotations.get?
          exampleEnv.annotationSecretSecure
        = directiveSecret.annotations.get? exampleEnv.annotationSecretSecure :=
  ⟨by decide, by decide, by decide, by decide,
    ((generateData_marker exampleEnv exampleRand directiveSecret Result.zero (by decide)
      (by decide) (by decide)).2 (by decide)).2⟩

theorem symIndex_mem (tbl : List Char) (c : Char) (i : Nat) (h : symIndex tbl c = some i) :
    c ∈ tbl := by
  unfold symIndex at h
  by_contra hc
  simp [hc] at h

theorem GoodTable.isSym {tbl : List Char} {n : Nat} (h : GoodTable tbl n) {c : Char}
    (hc : IsSym tbl n c) : c ≠ padChar ∧ c ∈ tbl := by
  obtain ⟨i, hi, rfl⟩ := hc
  exact ⟨h.sym_ne_pad hi, symIndex_mem _ _ _ (h.index_sym hi)⟩

/-- The first `m` characters of `l1 ++ l2` satisfy `P` when `l1` does and the
characters of `l2` that are reached do. -/
theorem forall_mem_take_append {P : Char → Prop} (l1 l2 : List Char) (m : Nat)
    (h1 : ∀ c ∈ l1, P c) (h2 : ∀ c ∈ l2.take (m - l1.length), P c) :
    ∀ c ∈ (l1 ++ l2).take m, P c := by
  intro c hc
  rw [List.take_append_eq_append_take] at hc
  rcases List.mem_append.mp hc with h | h
  · exact h1 c (List.mem_of_mem_take h)
  · exact h2 c h

/-- The first `m` characters of the base64 encoding of at least `m` bytes are
symbols of the alphabet. -/
theorem b64Encode_take_sym (tbl : List Char) (b : List Nat) (m : Nat) (hm : m ≤ b.length) :
    ∀ c ∈ (b64Encode tbl b).take m, IsSym tbl 64 c := by
  induction b using b64Encode.induct tbl generalizing m with
  | case1 b0 b1 b2 rest ih =>
      have hform : b64Encode tbl (b0 :: b1 :: b2 :: rest)
          = [sym tbl ((b0 * 65536 + b1 * 256 + b2) / 262144 % 64),
              sym tbl ((b0 * 65536 + b1 * 256 + b2) / 4096 % 64),
              sym tbl ((b0 * 65536 + b1 * 256 + b2) / 64 % 64),
              sym tbl ((b0 * 65536 + b1 * 256 + b2) % 64)] ++ b64Encode tbl rest := by
        simp [b64Encode]
      rw [hform]
      apply forall_mem_take_append
      · intro c hc
        simp only [List.mem_cons, List.mem_singleton, List.not_mem_nil, or_false] at hc
        rcases hc with rfl | rfl | rfl | rfl
        · exact ⟨_, by omega, rfl⟩
        · exact ⟨_, by omega, rfl⟩
        · exact ⟨_, by omega, rfl⟩
        · exact ⟨_, by omega, rfl⟩
      · apply ih
        simp only [List.length_cons] at hm ⊢
        omega
  | case2 b0 b1 =>
      have hform : b64Encode tbl [b0, b1]
          = [sym tbl ((b0 * 65536 + b1 * 256) / 262144 % 64),
              sym tbl ((b0 * 65536 + b1 * 256) / 4096 % 64),
              sym tbl ((b0 * 65536 + b1 * 256) / 64 % 64)] ++ [padChar] := by
        simp [b64Encode]
      rw [hform]
      apply forall_mem_take_append
      · intro c hc
        simp only [List.mem_cons, List.mem_singleton, List.not_mem_nil, or_false] at hc
        rcases hc with rfl | rfl | rfl
        · exact ⟨_, by omega, rfl⟩
        · exact ⟨_, by omega, rfl⟩
        · exact ⟨_, by omega, rfl⟩
      · have h0 : m - [sym tbl ((b0 * 65536 + b1 * 256) / 262144 % 64),
            sym tbl ((b0 * 65536 + b1 * 256) / 4096 % 64),
            sym tbl ((b0 * 65536 + b1 * 256) / 64 % 64)].length = 0 := by
          simp only [List.length_cons, List.length_nil] at hm ⊢
          omega
        rw [h0]
        simp
  | case3 b0 =>
      have hform : b64Encode tbl [b0]
          = [sym tbl ((b0 * 65536) / 262144 % 64), sym tbl ((b0 * 65536) / 4096 % 64)]
              ++ [padChar, padChar] := by
        simp [b64Encode]
      rw [hform]
      apply forall_mem_take_append
      · intro c hc
        simp only [List.mem_cons, List.mem_singleton, List.not_mem_nil, or_false] at hc
        rcases hc with rfl | rfl
        · exact ⟨_, by omega, rfl⟩
        · exact ⟨_, by omega, rfl⟩
      · have h0 : m - [sym tbl ((b0 * 65536) / 262144 % 64),
            sym tbl ((b0 * 65536) / 4096 % 64)].length = 0 := by
          simp only [List.length_cons, List.length_nil] at hm ⊢
          omega
        rw [h0]
        simp
  | case4 => simp [b64Encode]

theorem b32Blocks_lt (s0 s1 s2 s3 s4 : Nat) (h0 : s0 < 256) (h1 : s1 < 256) (h2 : s2 < 256)
    (h3 : s3 < 256) (h4 : s4 < 256) : ∀ q ∈ b32Blocks s0 s1 s2 s3 s4, q < 32 := by
  intro q hq
  simp only [b32Blocks, List.mem_cons, List.mem_singleton, List.not_mem_nil, or_false] at hq
  rcases hq with rfl | rfl | rfl | rfl | rfl | rfl | rfl | rfl <;> omega

theorem b32Blocks_take_sym (tbl : List Char) (s0 s1 s2 s3 s4 : Nat) (h0 : s0 < 256)
    (h1 : s1 < 256) (h2 : s2 < 256) (h3 : s3 < 256) (h4 : s4 < 256) (k : Nat) :
    ∀ c ∈ ((b32Blocks s0 s1 s2 s3 s4).take k).map (sym tbl), IsSym tbl 32 c := by
  intro c hc
  obtain ⟨q, hq, rfl⟩ := List.mem_map.mp hc
  exact ⟨q, b32Blocks_lt s0 s1 s2 s3 s4 h0 h1 h2 h3 h4 q (List.mem_of_mem_take hq), rfl⟩

/-- The first `m` characters of the base32 encoding of at least `m` bytes are
symbols of the alphabet. -/
theorem b32Encode_take_sym (tbl : List Char) (b : List Nat) (hb : ∀ x ∈ b, x < 256) (m : Nat)
    (hm : m ≤ b.length) : ∀ c ∈ (b32Encode tbl b).take m, IsSym tbl 32 c := by
  induction b using b32Encode.induct tbl generalizing m with
  | case1 s0 s1 s2 s3 s4 rest ih =>
      rw [b32Encode]
      apply forall_mem_take_append
      · have := b32Blocks_take_sym tbl s0 s1 s2 s3 s4 (hb s0 (by simp)) (hb s1 (by simp))
          (hb s2 (by simp)) (hb s3 (by simp)) (hb s4 (by simp)) 8
        simpa [b32Blocks] using this
      · apply ih (fun x hx => hb x (by simp [hx]))
        simp only [List.length_cons, List.length_map, b32Blocks] at hm ⊢
        omega
  | case2 s0 s1 s2 s3 =>
      rw [b32Encode]
      apply forall_mem_take_append
      · exact b32Blocks_take_sym tbl s0 s1 s2 s3 0 (hb s0 (by simp)) (hb s1 (by simp))
          (hb s2 (by simp)) (hb s3 (by simp)) (by decide) 7
      · have h0 : m - (((b32Blocks s0 s1 s2 s3 0).take 7).map (sym tbl)).length = 0 := by
          simp only [List.length_cons, List.length_nil, List.length_map, List.length_take,
            b32Blocks] at hm ⊢
          omega
        rw [h0]
        simp
  | case3 s0 s1 s2 =>
      rw [b32Encode]
      apply forall_mem_take_append
      · exact b32Blocks_take_sym tbl s0 s1 s2 0 0 (hb s0 (by simp)) (hb s1 (by simp))
          (hb s2 (by simp)) (by decide) (by decide) 5
      · have h0 : m - (((b32Blocks s0 s1 s2 0 0).take 5).map (sym tbl)).length = 0 := by
          simp only [List.length_cons, List.length_nil, List.length_map, List.length_take,
            b32Blocks] at hm ⊢
          omega
        rw [h0]
        simp
  | case4 s0 s1 =>
      rw [b32Encode]
      apply forall_mem_take_append
      · exact b32Blocks_take_sym tbl s0 s1 0 0 0 (hb s0 (by simp)) (hb s1 (by simp))
          (by decide) (by decide) (by decide) 4
      · have h0 : m - (((b32Blocks s0 s1 0 0 0).take 4).map (sym tbl)).length = 0 := by
          simp only [List.length_cons, List.length_nil, List.length_map, List.length_take,
            b32Blocks] at hm ⊢
          omega
        rw [h0]
        simp
  | case5 s0 =>
      rw [b32Encode]
      apply forall_mem_take_append
      · exact b32Blocks_take_sym tbl s0 0 0 0 0 (hb s0 (by simp)) (by decide) (by decide)
          (by decide) (by decide) 2
      · have h0 : m - (((b32Blocks s0 0 0 0 0).take 2).map (sym tbl)).length = 0 := by
          simp only [List.length_cons, List.length_nil, List.length_map, List.length_take,
            b32Blocks] at hm ⊢
          omega
        rw [h0]
        simp
  | case6 => simp [b32Encode]

theorem encodeToString_data (encoding : String) (b : List Nat) :
    (encoding = "base64url" → (encodeToString encoding b).data = b64Encode encodeURL b)
      ∧ (encoding = "base32" → (encodeToString encoding b).data = b32Encode encodeStd32 b)
      ∧ (encoding = "hex" → (encodeToString encoding b).data = hexEncode b)
      ∧ (encoding = "base64" → (encodeToString encoding b).data = b64Encode encodeStd b) := by
  refine ⟨?_, ?_, ?_, ?_⟩ <;> rintro rfl <;> simp [encodeToString]

/-- C17: in character-length mode, for every length `n ≥ 0` and each of the
encodings base64, base64url and base32, `generateRandomString` returns `n`
characters none of which is the padding character `=`: each is a symbol of the
alphabet of the encoding. -/
theorem generateRandomString_no_padding (n : Nat) (src : Nat → Nat) :
    (∃ s, generateRandomString (Draw.fill src) (n : Int) "base64" false = Res.ok s
        ∧ s.length = n ∧ ∀ c ∈ s.data, c ≠ padChar ∧ c ∈ encodeStd)
      ∧ (∃ s, generateRandomString (Draw.fill src) (n : Int) "base64url" false = Res.ok s
        ∧ s.length = n ∧ ∀ c ∈ s.data, c ≠ padChar ∧ c ∈ encodeURL)
      ∧ (∃ s, generateRandomString (Draw.fill src) (n : Int) "base32" false = Res.ok s
        ∧ s.length = n ∧ ∀ c ∈ s.data, c ≠ padChar ∧ c ∈ encodeStd32) := by
  have hlen : n ≤ (fillBytes src n).length := by rw [fillBytes_length]
  refine ⟨?_, ?_, ?_⟩
  · obtain ⟨s, h1, h2, h3⟩ := generateRandomString_chars src n "base64"
    refine ⟨s, h1, h2, ?_⟩
    intro c hc
    rw [h3, (encodeToString_data "base64" _).2.2.2 rfl] at hc
    exact encodeStd_good.isSym (b64Encode_take_sym _ _ n hlen c hc)
  · obtain ⟨s, h1, h2, h3⟩ := generateRandomString_chars src n "base64url"
    refine ⟨s, h1, h2, ?_⟩
    intro c hc
    rw [h3, (encodeToString_data "base64url" _).1 rfl] at hc
    exact encodeURL_good.isSym (b64Encode_take_sym _ _ n hlen c hc)
  · obtain ⟨s, h1, h2, h3⟩ := generateRandomString_chars src n "base32"
    refine ⟨s, h1, h2, ?_⟩
    intro c hc
    rw [h3, (encodeToString_data "base32" _).2.1 rfl] at hc
    exact encodeStd32_good.isSym
      (b32Encode_take_sym _ _ (fillBytes_lt src n) n hlen c hc)

/-! ## Truncation and the bytes that matter -/

/-- The first `k` characters of the hex encoding depend on the first `⌈k/2⌉` bytes. -/
theorem hexEncode_take (b1 b2 : List Nat) (k : Nat)
    (h : b1.take ((k + 1) / 2) = b2.take ((k + 1) / 2)) :
    (hexEncode b1).take k = (hexEncode b2).take k := by
  induction b1 generalizing b2 k with
  | nil =>
      rcases k with _ | k
      · simp
      · have hpos : (k + 1 + 1) / 2 = (k / 2) + 1 := by omega
        rw [hpos] at h
        cases b2 with
        | nil => rfl
        | cons v r => simp at h
  | cons v r1 ih =>
      rcases k with _ | _ | k
      · simp
      · cases b2 with
        | nil => simp at h
        | cons v2 r2 =>
            simp only [Nat.reduceAdd, Nat.reduceDiv, List.take_succ_cons, List.take_zero,
              List.cons.injEq, and_true] at h
            subst h
            simp [hexEncode]
      · have hpos : (k + 1 + 1 + 1) / 2 = ((k + 1) / 2) + 1 := by omega
        rw [hpos] at h
        cases b2 with
        | nil => simp at h
        | cons v2 r2 =>
            simp only [List.take_succ_cons, List.cons.injEq] at h
            obtain ⟨hv, hr⟩ := h
            subst hv
            simp only [hexEncode, List.take_succ_cons, List.cons.injEq, true_and]
            exact ih r2 k hr


/-- The first `k` characters of the base64 encoding depend on the first `⌈3k/4⌉`
bytes. -/
theorem b64Encode_take (tbl : List Char) (b1 b2 : List Nat) (hlen : b1.length = b2.length)
    (h1 : ∀ x ∈ b1, x < 256) (h2 : ∀ x ∈ b2, x < 256) (k : Nat)
    (h : b1.take ((3 * k + 3) / 4) = b2.take ((3 * k + 3) / 4)) :
    (b64Encode tbl b1).take k = (b64Encode tbl b2).take k := by
  induction b1 using b64Encode.induct tbl generalizing b2 k with
  | case1 a0 a1 a2 rest ih =>
      rcases b2 with _ | ⟨c0, _ | ⟨c1, _ | ⟨c2, rest2⟩⟩⟩
      · simp at hlen
      · simp at hlen
      · simp at hlen
      · have ha0 : a0 < 256 := h1 a0 (by simp)
        have ha1 : a1 < 256 := h1 a1 (by simp)
        have ha2 : a2 < 256 := h1 a2 (by simp)
        have hc0 : c0 < 256 := h2 c0 (by simp)
        have hc1 : c1 < 256 := h2 c1 (by simp)
        have hc2 : c2 < 256 := h2 c2 (by simp)
        rcases k with _ | _ | _ | _ | k
        · simp
        · have e : (3 * (0 + 1) + 3) / 4 = 1 := by norm_num
          rw [e] at h
          simp only [List.take_succ_cons, List.take_zero, List.cons.injEq, and_true] at h
          subst h
          have i0 : (a0 * 65536 + a1 * 256 + a2) / 262144 % 64
              = (a0 * 65536 + c1 * 256 + c2) / 262144 % 64 := by omega
          simp [b64Encode, i0]
        · have e : (3 * (0 + 1 + 1) + 3) / 4 = 2 := by norm_num
          rw [e] at h
          simp only [List.take_succ_cons, List.take_zero, List.cons.injEq, and_true] at h
          obtain ⟨h0, h1'⟩ := h
          subst h0 h1'
          have i0 : (a0 * 65536 + a1 * 256 + a2) / 262144 % 64
              = (a0 * 65536 + a1 * 256 + c2) / 262144 % 64 := by omega
          have i1 : (a0 * 65536 + a1 * 256 + a2) / 4096 % 64
              = (a0 * 65536 + a1 * 256 + c2) / 4096 % 64 := by omega
          simp [b64Encode, i0, i1]
        · have e : (3 * (0 + 1 + 1 + 1) + 3) / 4 = 3 := by norm_num
          rw [e] at h
          simp only [List.take_succ_cons, List.take_zero, List.cons.injEq, and_true] at h
          obtain ⟨h0, h1', h2'⟩ := h
          subst h0 h1' h2'
          simp [b64Encode]
        · have e : (3 * (k + 1 + 1 + 1 + 1) + 3) / 4 = (3 * k + 3) / 4 + 1 + 1 + 1 := by omega
          rw [e] at h
          simp only [List.take_succ_cons, List.cons.injEq] at h
          obtain ⟨h0, h1', h2', hr⟩ := h
          subst h0 h1' h2'
          have hrest := ih rest2 (by simpa using hlen) (fun x hx => h1 x (by simp [hx]))
            (fun x hx => h2 x (by simp [hx])) k hr
          simp only [b64Encode, List.take_succ_cons, hrest]
  | case2 a0 a1 =>
      rcases b2 with _ | ⟨c0, _ | ⟨c1, _ | ⟨c2, rest2⟩⟩⟩
      · simp at hlen
      · simp at hlen
      · have ha0 : a0 < 256 := h1 a0 (by simp)
        have ha1 : a1 < 256 := h1 a1 (by simp)
        have hc1 : c1 < 256 := h2 c1 (by simp)
        rcases k with _ | _ | k
        · simp
        · have e : (3 * (0 + 1) + 3) / 4 = 1 := by norm_num
          rw [e] at h
          simp only [List.take_succ_cons, List.take_zero, List.cons.injEq, and_true] at h
          subst h
          have i0 : (a0 * 65536 + a1 * 256) / 262144 % 64
              = (a0 * 65536 + c1 * 256) / 262144 % 64 := by omega
          simp [b64Encode, i0]
        · have e : (3 * (k + 1 + 1) + 3) / 4 = (3 * k + 1) / 4 + 1 + 1 := by omega
          rw [e] at h
          simp only [List.take_succ_cons, List.cons.injEq, List.take_nil, and_true] at h
          obtain ⟨h0, h1'⟩ := h
          subst h0 h1'
          rfl
      · simp at hlen
  | case3 a0 =>
      rcases b2 with _ | ⟨c0, _ | ⟨c1, rest2⟩⟩
      · simp at hlen
      · rcases k with _ | k
        · simp
        · have e : (3 * (k + 1) + 3) / 4 = (3 * k + 2) / 4 + 1 := by omega
          rw [e] at h
          simp only [List.take_succ_cons, List.cons.injEq, List.take_nil, and_true] at h
          subst h
          rfl
      · simp at hlen
  | case4 =>
      cases b2 with
      | nil => rfl
      | cons c r => simp at hlen

theorem generateRandomString_char_mode_eq (src1 src2 : Nat → Nat) (n : Nat) (encoding : String)
    (h : (encodeToString encoding (fillBytes src1 n)).data.take n
      = (encodeToString encoding (fillBytes src2 n)).data.take n) :
    generateRandomString (Draw.fill src1) (n : Int) encoding false
      = generateRandomString (Draw.fill src2) (n : Int) encoding false := by
  obtain ⟨s1, a1, _, a3⟩ := generateRandomString_chars src1 n encoding
  obtain ⟨s2, b1, _, b3⟩ := generateRandomString_chars src2 n encoding
  rw [a1, b1]
  congr 1
  apply String.ext
  rw [a3, b3, h]

/-- C20: in character-length mode with the hex encoding, two draws of `n` bytes
that agree on their first `⌈n/2⌉` bytes give the same `n`-character string; with
base64 and base64url the same holds for draws that agree on their first
`⌈3n/4⌉` bytes. The bytes after that prefix have no influence on the result. -/
theorem generateRandomString_truncation_discards (n : Nat) (src1 src2 : Nat → Nat) :
    ((fillBytes src1 n).take ((n + 1) / 2) = (fillBytes src2 n).take ((n + 1) / 2) →
        generateRandomString (Draw.fill src1) (n : Int) "hex" false
          = generateRandomString (Draw.fill src2) (n : Int) "hex" false)
      ∧ ((fillBytes src1 n).take ((3 * n + 3) / 4)
            = (fillBytes src2 n).take ((3 * n + 3) / 4) →
          generateRandomString (Draw.fill src1) (n : Int) "base64" false
              = generateRandomString (Draw.fill src2) (n : Int) "base64" false
            ∧ generateRandomString (Draw.fill src1) (n : Int) "base64url" false
              = generateRandomString (Draw.fill src2) (n : Int) "base64url" false) := by
  have hl : (fillBytes src1 n).length = (fillBytes src2 n).length := by
    rw [fillBytes_length, fillBytes_length]
  constructor
  · intro h
    apply generateRandomString_char_mode_eq
    rw [(encodeToString_data "hex" _).2.2.1 rfl, (encodeToString_data "hex" _).2.2.1 rfl]
    exact hexEncode_take _ _ n h
  · intro h
    constructor
    · apply generateRandomString_char_mode_eq
      rw [(encodeToString_data "base64" _).2.2.2 rfl,
        (encodeToString_data "base64" _).2.2.2 rfl]
      exact b64Encode_take _ _ _ hl (fillBytes_lt src1 n) (fillBytes_lt src2 n) n h
    · apply generateRandomString_char_mode_eq
      rw [(encodeToString_data "base64url" _).1 rfl,
        (encodeToString_data "base64url" _).1 rfl]
      exact b64Encode_take _ _ _ hl (fillBytes_lt src1 n) (fillBytes_lt src2 n) n h

/-- C20, an instance: two draws of three bytes that differ in the last byte only
give the same three hex characters. -/
theorem generateRandomString_truncation_discards_witness :
    (fillBytes (fun j => j) 3).take ((3 + 1) / 2)
        = (fillBytes (fun j => if j = 2 then 255 else j) 3).take ((3 + 1) / 2)
      ∧ fillBytes (fun j => j) 3 ≠ fillBytes (fun j => if j = 2 then 255 else j) 3
      ∧ generateRandomString (Draw.fill (fun j => j)) (3 : Nat) "hex" false
        = generateRandomString (Draw.fill (fun j => if j = 2 then 255 else j)) (3 : Nat)
            "hex" false :=
  ⟨by decide, by decide,
    (generateRandomString_truncation_discards 3 (fun j => j)
      (fun j => if j = 2 then 255 else j)).1 (by decide)⟩

end SecretGenerator
